import Mathlib

/-!
Verification of the anomaly-detection / trend-analysis core of the
Interactive-Power-BI-Executive-Dashboard repository.

The Python sources embedded here are
  * `src/python/anomaly_detection/anomaly_detector.py`  (class `AnomalyDetector`)
  * `src/python/trend_analysis/trend_analyzer.py`       (class `TrendAnalyzer`)

Modelling conventions:
  * Python/NumPy floats are modelled as rationals (`ℚ`); `NaN` cells are
    modelled as `Option.none`.  NumPy comparisons against `NaN` yield
    `False`; the embedding makes the corresponding flag `false` (and keeps
    track of "undefined" via `Option` where a claim needs it).
  * Square roots (standard deviations) are irrational, so every flag of the
    form `|x - mean| > t * std` is embedded in the equivalent squared form
    `(x - mean)^2 > t^2 * variance` (both sides of the original comparison
    are nonnegative for the thresholds the code uses).  Columns that the
    code fills with a standard deviation / z-score are stored as the
    corresponding variance / squared z-score; no claim reads those numeric
    values, only the flags derived from them.
  * The scikit-learn `StandardScaler`+`IsolationForest` pipeline is an
    external library; it is modelled as abstract per-row predictor/score
    functions carried by the `AnomalyDetector` structure.
-/

namespace PowerBI

/-- Sum of a list of rationals. -/
def qsum (xs : List ℚ) : ℚ := xs.foldr (· + ·) 0

/-- Arithmetic mean of a list of rationals (0 for the empty list, mirroring
the `0/0 = NaN` convention only through the flags that consume it). -/
def qmean (xs : List ℚ) : ℚ := qsum xs / xs.length

/-- Population variance (`ddof = 0`), as used by `scipy.stats.zscore`. -/
def qvarPop (xs : List ℚ) : ℚ :=
  qsum (xs.map (fun x => (x - qmean xs) ^ 2)) / xs.length

/-- Sample variance (`ddof = 1`), as used by `pandas` rolling `.std()`. -/
def qvarSamp (xs : List ℚ) : ℚ :=
  qsum (xs.map (fun x => (x - qmean xs) ^ 2)) / (xs.length - 1 : ℚ)

@[simp] theorem qsum_nil : qsum [] = 0 := rfl

@[simp] theorem qsum_cons (x : ℚ) (xs : List ℚ) : qsum (x :: xs) = x + qsum xs := rfl

theorem qsum_replicate (n : ℕ) (c : ℚ) : qsum (List.replicate n c) = n * c := by
  induction n with
  | zero => simp
  | succ n ih => simp [List.replicate_succ, ih]; ring

theorem qmean_replicate (n : ℕ) (c : ℚ) (hn : n ≠ 0) :
    qmean (List.replicate n c) = c := by
  simp [qmean, qsum_replicate]
  field_simp

end PowerBI

namespace TrendAnalyzer

open PowerBI

/-- Trend direction labels returned by `detect_trend_direction`. -/
inductive Direction
  | Upward
  | Downward
  | Stable
  deriving DecidableEq, Repr

/-- Ordinary-least-squares slope of `series` regressed on the index
`0, 1, ..., n-1`, exactly what `sklearn.linear_model.LinearRegression`
computes in `detect_trend_direction` and `forecast_linear_trend`:
`slope = (n·Σ i·yᵢ − (Σ i)(Σ yᵢ)) / (n·Σ i² − (Σ i)²)`. -/
def olsSlope (series : List ℚ) : ℚ :=
  let n : ℚ := series.length
  let sx : ℚ := qsum ((List.range series.length).map (fun i : ℕ => (i : ℚ)))
  let sxx : ℚ := qsum ((List.range series.length).map (fun i : ℕ => (i : ℚ) ^ 2))
  let sy : ℚ := qsum series
  let sxy : ℚ := qsum ((List.range series.length).map (fun i : ℕ => (i : ℚ) * series.getD i 0))
  (n * sxy - sx * sy) / (n * sxx - sx ^ 2)

/-- OLS intercept: `ȳ − slope·x̄`. -/
def olsIntercept (series : List ℚ) : ℚ :=
  qmean series - olsSlope series * qmean ((List.range series.length).map (fun i : ℕ => (i : ℚ)))

/-- The direction classification of `detect_trend_direction`
(`trend_analyzer.py`, lines 62-68): slope `> 0.01` is `Upward`,
slope `< -0.01` is `Downward`, otherwise `Stable`. -/
def classifySlope (slope : ℚ) : Direction :=
  if slope > 1/100 then .Upward
  else if slope < -(1/100) then .Downward
  else .Stable

/-- `detect_trend_direction`'s direction field for a series. -/
def detect_trend_direction (series : List ℚ) : Direction :=
  classifySlope (olsSlope series)

/-- `forecast_linear_trend` (`trend_analyzer.py`, lines 208-236): fit one
OLS line over the index and evaluate it at indices `n, n+1, ..., n+steps-1`. -/
def forecast_linear_trend (series : List ℚ) (steps : ℕ) : List ℚ :=
  (List.range steps).map
    (fun k => olsIntercept series + olsSlope series * ((series.length + k : ℕ) : ℚ))

/-- Pairwise percent changes `(xᵢ₊₁ − xᵢ)/xᵢ`, the defined entries of
`pandas.Series.pct_change` (the first entry of the pandas result is `NaN`
and is skipped by `.mean()`; it is therefore not materialized here). -/
def pctChanges (xs : List ℚ) : List ℚ :=
  (xs.zip xs.tail).map (fun p => (p.2 - p.1) / p.1)

/-- Result record of `calculate_growth_metrics`.  `none` models a Python
`None` or `NaN` entry.  The `cagr` field stores the ratio
`last / first`; the code stores `((last/first) ** (365/n) − 1) * 100`, an
irrational strictly-monotone transform of this ratio — only definedness
(`None` versus a number) of this field is examined by any claim. -/
structure GrowthMetrics where
  mom_growth : Option ℚ
  yoy_growth : Option ℚ
  cagr : Option ℚ
  avg_growth_rate : Option ℚ
  current_value : ℚ
  start_value : ℚ
  deriving DecidableEq, Repr

/-- `calculate_growth_metrics` (`trend_analyzer.py`, lines 238-274).
The outer `Option` models the `IndexError` that `series.iloc[-1]` raises
on an empty series.  `mom_growth` is `NaN` (here `none`) when the series
has a single point; `yoy_growth`/`cagr` are `None` exactly when the series
has fewer than 365 points — the code performs no check on the sign of the
first value. -/
def calculate_growth_metrics (s : List ℚ) : Option GrowthMetrics :=
  match s with
  | [] => none
  | x :: rest =>
    let xs := x :: rest
    let n := xs.length
    let lastv := xs.getLastD 0
    some
      { mom_growth := if 2 ≤ n then some ((pctChanges xs).getLastD 0 * 100) else none
        yoy_growth := if 365 ≤ n then
            some ((lastv - xs.getD (n - 365) 0) / xs.getD (n - 365) 0 * 100) else none
        cagr := if 365 ≤ n then some (lastv / x) else none
        avg_growth_rate := if 2 ≤ n then some (qmean (pctChanges xs) * 100) else none
        current_value := lastv
        start_value := x }

/-- The flip of a direction label: `Upward ↔ Downward`, `Stable` fixed. -/
def Direction.flip : Direction → Direction
  | .Upward => .Downward
  | .Downward => .Upward
  | .Stable => .Stable

end TrendAnalyzer

namespace PowerBI

theorem qsum_append (a b : List ℚ) : qsum (a ++ b) = qsum a + qsum b := by
  induction a with
  | nil => simp
  | cons x t ih => simp [ih]; ring

theorem qsum_map_range (g : ℕ → ℚ) (n : ℕ) :
    qsum ((List.range n).map g) = ∑ i in Finset.range n, g i := by
  induction n with
  | zero => simp [qsum]
  | succ n ih =>
      rw [List.range_succ, List.map_append, qsum_append, ih, Finset.sum_range_succ]
      simp [qsum]

theorem qsum_map_mul (c : ℚ) (l : List ℚ) :
    qsum (l.map (fun v => c * v)) = c * qsum l := by
  induction l with
  | nil => simp
  | cons x t ih => simp [ih]; ring

theorem getD_map_mul (c : ℚ) : ∀ (s : List ℚ) (i : ℕ),
    (s.map (fun v => c * v)).getD i 0 = c * s.getD i 0
  | [], i => by simp
  | a :: s, 0 => by simp
  | a :: s, i + 1 => by
      simpa using getD_map_mul c s i

end PowerBI

namespace TrendAnalyzer

open PowerBI

theorem olsSlope_smul (c : ℚ) (s : List ℚ) :
    olsSlope (s.map (fun v => c * v)) = c * olsSlope s := by
  unfold olsSlope
  simp only [List.length_map]
  have hsy : qsum (s.map (fun v => c * v)) = c * qsum s := qsum_map_mul c s
  have hsxy :
      qsum ((List.range s.length).map
        (fun i : ℕ => (i : ℚ) * (s.map (fun v => c * v)).getD i 0)) =
      c * qsum ((List.range s.length).map (fun i : ℕ => (i : ℚ) * s.getD i 0)) := by
    rw [qsum_map_range, qsum_map_range, Finset.mul_sum]
    refine Finset.sum_congr rfl (fun i _ => ?_)
    rw [getD_map_mul]
    ring
  rw [hsy, hsxy, ← mul_div_assoc]
  congr 1
  ring

theorem olsSlope_neg (s : List ℚ) :
    olsSlope (s.map (fun v => -v)) = - olsSlope s := by
  have h : s.map (fun v => -v) = s.map (fun v => (-1 : ℚ) * v) := by
    simp
  rw [h, olsSlope_smul]
  ring

theorem classifySlope_neg (s : ℚ) :
    classifySlope (-s) = (classifySlope s).flip := by
  unfold classifySlope Direction.flip
  split_ifs with h1 h2 h3 h4 h5 h6 <;> first
    | rfl
    | (exfalso; linarith)

theorem classifySlope_eq_upward (x : ℚ) : classifySlope x = .Upward ↔ 1/100 < x := by
  unfold classifySlope
  split_ifs with h1 h2 <;> simp_all

theorem classifySlope_eq_downward (x : ℚ) : classifySlope x = .Downward ↔ x < -(1/100) := by
  unfold classifySlope
  split_ifs with h1 h2 <;> simp_all
  linarith

theorem classifySlope_eq_stable (x : ℚ) :
    classifySlope x = .Stable ↔ (-(1/100) ≤ x ∧ x ≤ 1/100) := by
  unfold classifySlope
  split_ifs with h1 h2
  · constructor
    · intro h; exact absurd h (by decide)
    · rintro ⟨ha, hb⟩; exfalso; linarith
  · constructor
    · intro h; exact absurd h (by decide)
    · rintro ⟨ha, hb⟩; exfalso; linarith
  · constructor
    · intro _; constructor <;> linarith
    · intro _; rfl

/-- C2 (counterexample): scaling every value of a series by the positive
constant 100 changes the classification of `detect_trend_direction` from
`Stable` to `Upward` — the thresholds `±0.01` are absolute, not
scale-relative. -/
theorem trend_direction_scale_changes_classification :
    (0:ℚ) < 100 ∧
    detect_trend_direction [0, 1/200] = .Stable ∧
    detect_trend_direction (([0, 1/200] : List ℚ).map (fun v => (100:ℚ) * v)) = .Upward := by
  have e1 : olsSlope [0, 1/200] = 1/200 := by
    unfold olsSlope
    norm_num [List.range_succ]
  have em : ([0, 1/200] : List ℚ).map (fun v => (100:ℚ) * v) = [0, 1/2] := by norm_num
  have e2 : olsSlope [0, 1/2] = 1/2 := by
    unfold olsSlope
    norm_num [List.range_succ]
  refine ⟨by norm_num, ?_, ?_⟩
  · unfold detect_trend_direction
    rw [e1, classifySlope_eq_stable]
    norm_num
  · unfold detect_trend_direction
    rw [em, e2, classifySlope_eq_upward]
    norm_num

/-- C2 (amended): scaling by a positive constant `c` multiplies the OLS
slope by `c` (so it preserves the sign of the slope, and preserves the
`Upward`/`Downward` classes whenever `1 ≤ c` and the `Stable` class
whenever `c ≤ 1`, but not the classification in general); negating every
value flips `Upward ↔ Downward` and fixes `Stable`. -/
theorem detect_trend_direction_scaling_negation (s : List ℚ) (c : ℚ) (hc : 0 < c) :
    olsSlope (s.map (fun v => c * v)) = c * olsSlope s ∧
    detect_trend_direction (s.map (fun v => -v)) = (detect_trend_direction s).flip ∧
    (1 ≤ c → detect_trend_direction s = .Upward →
      detect_trend_direction (s.map (fun v => c * v)) = .Upward) ∧
    (1 ≤ c → detect_trend_direction s = .Downward →
      detect_trend_direction (s.map (fun v => c * v)) = .Downward) ∧
    (c ≤ 1 → detect_trend_direction s = .Stable →
      detect_trend_direction (s.map (fun v => c * v)) = .Stable) := by
  refine ⟨olsSlope_smul c s, ?_, ?_, ?_, ?_⟩
  · unfold detect_trend_direction
    rw [olsSlope_neg, classifySlope_neg]
  · intro h1 hup
    unfold detect_trend_direction at *
    rw [olsSlope_smul]
    rw [classifySlope_eq_upward] at hup ⊢
    nlinarith
  · intro h1 hdown
    unfold detect_trend_direction at *
    rw [olsSlope_smul]
    rw [classifySlope_eq_downward] at hdown ⊢
    nlinarith
  · intro h1 hst
    unfold detect_trend_direction at *
    rw [olsSlope_smul]
    rw [classifySlope_eq_stable] at hst ⊢
    rcases le_or_lt 0 (olsSlope s) with h | h
    · constructor <;> nlinarith
    · constructor <;> nlinarith

/-- Witness for `detect_trend_direction_scaling_negation` at `s = [0, 1]`,
`c = 2`. -/
theorem detect_trend_direction_scaling_negation_witness :
    (0:ℚ) < 2 ∧
    (olsSlope (([0, 1] : List ℚ).map (fun v => (2:ℚ) * v)) = 2 * olsSlope [0, 1] ∧
     detect_trend_direction (([0, 1] : List ℚ).map (fun v => -v)) =
       (detect_trend_direction [0, 1]).flip ∧
     ((1:ℚ) ≤ 2 → detect_trend_direction ([0, 1] : List ℚ) = .Upward →
       detect_trend_direction (([0, 1] : List ℚ).map (fun v => (2:ℚ) * v)) = .Upward) ∧
     ((1:ℚ) ≤ 2 → detect_trend_direction ([0, 1] : List ℚ) = .Downward →
       detect_trend_direction (([0, 1] : List ℚ).map (fun v => (2:ℚ) * v)) = .Downward) ∧
     ((2:ℚ) ≤ 1 → detect_trend_direction ([0, 1] : List ℚ) = .Stable →
       detect_trend_direction (([0, 1] : List ℚ).map (fun v => (2:ℚ) * v)) = .Stable)) :=
  ⟨by norm_num, detect_trend_direction_scaling_negation [0, 1] 2 (by norm_num)⟩

theorem sum_range_idQ (n : ℕ) :
    ∑ i in Finset.range n, (i : ℚ) = n * (n - 1) / 2 := by
  induction n with
  | zero => simp
  | succ n ih =>
      rw [Finset.sum_range_succ, ih]
      push_cast
      ring

theorem sum_range_sqQ (n : ℕ) :
    ∑ i in Finset.range n, (i : ℚ) ^ 2 = n * (n - 1) * (2 * n - 1) / 6 := by
  induction n with
  | zero => simp
  | succ n ih =>
      rw [Finset.sum_range_succ, ih]
      push_cast
      ring

theorem getD_map_range (f : ℕ → ℚ) (n i : ℕ) :
    ((List.range n).map f).getD i 0 = if i < n then f i else 0 := by
  rcases lt_or_ge i n with h | h
  · rw [List.getD_eq_getElem?_getD]
    simp [List.getElem?_map, List.getElem?_range h, h]
  · rw [List.getD_eq_getElem?_getD]
    rw [List.getElem?_eq_none (by simpa using h)]
    simp [Nat.not_lt.mpr h]

theorem ols_denQ (n : ℕ) :
    (n : ℚ) * (∑ i in Finset.range n, (i : ℚ) ^ 2) - (∑ i in Finset.range n, (i : ℚ)) ^ 2
      = (n : ℚ) ^ 2 * ((n : ℚ) - 1) * ((n : ℚ) + 1) / 12 := by
  rw [sum_range_idQ, sum_range_sqQ]
  ring

theorem ols_denQ_pos (n : ℕ) (hn : 2 ≤ n) :
    0 < (n : ℚ) * (∑ i in Finset.range n, (i : ℚ) ^ 2)
          - (∑ i in Finset.range n, (i : ℚ)) ^ 2 := by
  rw [ols_denQ]
  have h2 : (2 : ℚ) ≤ (n : ℚ) := by exact_mod_cast hn
  apply div_pos _ (by norm_num)
  have hp : (0 : ℚ) < (n : ℚ) ^ 2 := by positivity
  have h1 : (0 : ℚ) < (n : ℚ) - 1 := by linarith
  have h3 : (0 : ℚ) < (n : ℚ) + 1 := by linarith
  exact mul_pos (mul_pos hp h1) h3

/-- On an exactly affine series `yᵢ = α + β·i`, the OLS slope is `β`. -/
theorem olsSlope_affine (α β : ℚ) (n : ℕ) (hn : 2 ≤ n) :
    olsSlope ((List.range n).map (fun i : ℕ => α + β * i)) = β := by
  unfold olsSlope
  simp only [List.length_map, List.length_range]
  rw [qsum_map_range, qsum_map_range, qsum_map_range, qsum_map_range]
  have hxy : ∀ i ∈ Finset.range n,
      (i : ℚ) * ((List.range n).map (fun i : ℕ => α + β * i)).getD i 0
        = (i : ℚ) * (α + β * i) := by
    intro i hi
    rw [getD_map_range]
    simp [Finset.mem_range.mp hi]
  rw [Finset.sum_congr rfl hxy]
  have e1 : ∑ i in Finset.range n, (i : ℚ) * (α + β * i)
      = α * (∑ i in Finset.range n, (i : ℚ)) + β * (∑ i in Finset.range n, (i : ℚ) ^ 2) := by
    rw [Finset.mul_sum, Finset.mul_sum, ← Finset.sum_add_distrib]
    refine Finset.sum_congr rfl (fun i _ => ?_)
    ring
  have e2 : ∑ i in Finset.range n, (α + β * (i : ℚ))
      = (n : ℚ) * α + β * (∑ i in Finset.range n, (i : ℚ)) := by
    rw [Finset.sum_add_distrib, Finset.sum_const, Finset.card_range, Finset.mul_sum]
    simp [mul_comm]
  rw [e1, e2]
  have hden := ols_denQ_pos n hn
  rw [div_eq_iff (ne_of_gt hden)]
  ring

/-- On an exactly affine series the OLS intercept is `α`. -/
theorem olsIntercept_affine (α β : ℚ) (n : ℕ) (hn : 2 ≤ n) :
    olsIntercept ((List.range n).map (fun i : ℕ => α + β * i)) = α := by
  unfold olsIntercept qmean
  simp only [List.length_map, List.length_range]
  rw [olsSlope_affine α β n hn, qsum_map_range, qsum_map_range]
  have e2 : ∑ i in Finset.range n, (α + β * (i : ℚ))
      = (n : ℚ) * α + β * (∑ i in Finset.range n, (i : ℚ)) := by
    rw [Finset.sum_add_distrib, Finset.sum_const, Finset.card_range, Finset.mul_sum]
    simp [mul_comm]
  rw [e2]
  have hn0 : (n : ℚ) ≠ 0 := by
    have : (2 : ℚ) ≤ (n : ℚ) := by exact_mod_cast hn
    linarith
  field_simp

/-- C7: `forecast_linear_trend` extrapolates the single OLS fit over the
index.  On an exactly affine series of length `n ≥ 2` it recovers the
affine extension at indices `n, …, n+steps−1`; for every series the
forecast has exactly `steps` entries. -/
theorem forecast_linear_trend_ols (α β : ℚ) (n steps : ℕ) (hn : 2 ≤ n) :
    forecast_linear_trend ((List.range n).map (fun i : ℕ => α + β * i)) steps =
      (List.range steps).map (fun k : ℕ => α + β * ((n + k : ℕ) : ℚ)) ∧
    ∀ s : List ℚ, (forecast_linear_trend s steps).length = steps := by
  constructor
  · unfold forecast_linear_trend
    simp only [List.length_map, List.length_range]
    refine List.map_congr_left (fun k _ => ?_)
    rw [olsSlope_affine α β n hn, olsIntercept_affine α β n hn]
  · intro s
    simp [forecast_linear_trend]

/-- Witness for `forecast_linear_trend_ols`: the spec's round-trip
scenario.  The 10-point arithmetic series `[100, 110, …, 190]` forecast
one step ahead yields exactly `200`. -/
theorem forecast_linear_trend_ols_witness :
    (2 ≤ 10 ∧
      forecast_linear_trend
        [100, 110, 120, 130, 140, 150, 160, 170, 180, 190] 1 = [200]) := by
  have h := (forecast_linear_trend_ols 100 10 10 1 (by norm_num)).1
  have e : ((List.range 10).map (fun i : ℕ => (100 : ℚ) + 10 * i))
      = [100, 110, 120, 130, 140, 150, 160, 170, 180, 190] := by
    norm_num [List.range_succ]
  have e2 : ((List.range 1).map (fun k : ℕ => (100 : ℚ) + 10 * ((10 + k : ℕ) : ℚ)))
      = [200] := by
    norm_num [List.range_succ]
  exact ⟨by norm_num, by rw [← e, h, e2]⟩

/-- C3 (amended): for every nonempty series, the year-over-year growth and
the CAGR of `calculate_growth_metrics` are null exactly when the series
has fewer than 365 points; the sign of the first value is never checked. -/
theorem growth_metrics_nullness (x : ℚ) (rest : List ℚ) :
    (((calculate_growth_metrics (x :: rest)).bind (fun m => m.yoy_growth)).isSome = true
        ↔ 365 ≤ (x :: rest).length) ∧
    (((calculate_growth_metrics (x :: rest)).bind (fun m => m.cagr)).isSome = true
        ↔ 365 ≤ (x :: rest).length) := by
  constructor <;>
  · simp only [calculate_growth_metrics, Option.some_bind, List.length_cons]
    split_ifs with h <;> simp <;> omega

set_option maxRecDepth 4000 in
/-- C3 (counterexample): a 365-point series whose first value is `0` — not
strictly positive — still gets a non-null CAGR from
`calculate_growth_metrics`; the code checks only the length. -/
theorem growth_metrics_cagr_nonnull_nonpositive_start :
    365 ≤ ((0:ℚ) :: List.replicate 364 (1:ℚ)).length ∧
    ¬ (0 : ℚ) > 0 ∧
    ((calculate_growth_metrics ((0:ℚ) :: List.replicate 364 (1:ℚ))).bind
        (fun m => m.cagr)).isSome = true := by
  refine ⟨?_, by norm_num, ?_⟩
  · rw [List.length_cons, List.length_replicate]
  · simp only [calculate_growth_metrics, Option.some_bind, List.length_cons,
      List.length_replicate]
    norm_num

end TrendAnalyzer

namespace TrendAnalyzer

open PowerBI

/-!
### Peak/trough locator (`identify_peaks_and_troughs`,
`trend_analyzer.py` lines 276-302)

`scipy.signal.find_peaks(values, prominence=p)` is the external dependency
here; it is embedded following its documented algorithm: a local maximum
is a maximal plateau of equal values whose neighbours on both sides are
strictly smaller, reported at the plateau midpoint (integer division);
the prominence of a peak is its height minus the higher of the two base
minima, a base minimum being the smallest value on the walk from the peak
towards one side that stops at the series border or at the first value
exceeding the peak; peaks with prominence `≥ p` are kept.
-/

/-- Left edge of the plateau of equal values containing index `j`. -/
def plLeft (x : List ℚ) : ℕ → ℕ
  | 0 => 0
  | j + 1 => if x.getD j 0 = x.getD (j + 1) 0 then plLeft x j else j + 1

def plRightAux (x : List ℚ) : ℕ → ℕ → ℕ
  | 0, j => j
  | fuel + 1, j =>
      if j + 1 < x.length ∧ x.getD (j + 1) 0 = x.getD j 0 then plRightAux x fuel (j + 1)
      else j

/-- Right edge of the plateau of equal values containing index `j`. -/
def plRight (x : List ℚ) (j : ℕ) : ℕ := plRightAux x x.length j

/-- Is `i` the reported index (plateau midpoint) of a local maximum? -/
def isPeakIdx (x : List ℚ) (i : ℕ) : Bool :=
  let l := plLeft x i
  let r := plRight x i
  decide (0 < l) && decide (r + 1 < x.length) &&
  decide (x.getD (l - 1) 0 < x.getD i 0) && decide (x.getD (r + 1) 0 < x.getD i 0) &&
  decide (i = (l + r) / 2)

def localMaxIndices (x : List ℚ) : List ℕ :=
  (List.range x.length).filter (isPeakIdx x)

/-- Minimum over the leftward walk from `j` through values `≤ xp`;
`none` when the walk is empty (`x j > xp`). -/
def wleft (x : List ℚ) (xp : ℚ) : ℕ → Option ℚ
  | 0 => if x.getD 0 0 ≤ xp then some (x.getD 0 0) else none
  | j + 1 =>
      if x.getD (j + 1) 0 ≤ xp then
        some (match wleft x xp j with
              | some m => min (x.getD (j + 1) 0) m
              | none => x.getD (j + 1) 0)
      else none

/-- Minimum over the rightward walk from `j` through values `≤ xp`. -/
def wright (x : List ℚ) (xp : ℚ) : ℕ → ℕ → Option ℚ
  | 0, _ => none
  | fuel + 1, j =>
      if j < x.length ∧ x.getD j 0 ≤ xp then
        some (match wright x xp fuel (j + 1) with
              | some m => min (x.getD j 0) m
              | none => x.getD j 0)
      else none

/-- `scipy.signal.peak_prominences` of the peak at `i`. -/
def prominence (x : List ℚ) (i : ℕ) : ℚ :=
  let xp := x.getD i 0
  let lm := (wleft x xp i).getD xp
  let rm := (wright x xp (x.length - i) i).getD xp
  xp - max lm rm

/-- `scipy.signal.find_peaks(x, prominence=pmin)`. -/
def find_peaks (x : List ℚ) (pmin : ℚ) : List ℕ :=
  (localMaxIndices x).filter (fun i => decide (pmin ≤ prominence x i))

structure PeaksTroughs where
  peak_indices : List ℕ
  peak_values : List ℚ
  trough_indices : List ℕ
  trough_values : List ℚ
  peak_count : ℕ
  trough_count : ℕ
  deriving DecidableEq, Repr

/-- `identify_peaks_and_troughs`: peaks from `find_peaks(values, p)`,
troughs from `find_peaks(-values, p)`, values read off the original
series.  The Python default for `prominence` is the constant `0.1`. -/
def identify_peaks_and_troughs (series : List ℚ) (prom : ℚ := 1/10) : PeaksTroughs :=
  let values := series
  let peaks := find_peaks values prom
  let troughs := find_peaks (values.map (fun v => -v)) prom
  { peak_indices := peaks
    peak_values := peaks.map (fun i => values.getD i 0)
    trough_indices := troughs
    trough_values := troughs.map (fun i => values.getD i 0)
    peak_count := peaks.length
    trough_count := troughs.length }

def listMax : List ℚ → ℚ
  | [] => 0
  | x :: t => t.foldl max x

def listMin : List ℚ → ℚ
  | [] => 0
  | x :: t => t.foldl min x

/-- The claim's version of the locator, following the spec's words: the
default minimum prominence is "scaled to 10% of value range (max minus
min)".  Used only to compare against the code's fixed default `0.1`. -/
def identifyPeaksTroughsSpecScaled (series : List ℚ) : PeaksTroughs :=
  identify_peaks_and_troughs series ((listMax series - listMin series) / 10)

/-- Direct characterization of troughs: a local-minimum plateau midpoint,
with downward prominence `min(leftMax, rightMax) − value` — stated
independently of the negate-and-reuse trick so that the trick can be
proved against it. -/
def isTroughIdx (x : List ℚ) (i : ℕ) : Bool :=
  let l := plLeft x i
  let r := plRight x i
  decide (0 < l) && decide (r + 1 < x.length) &&
  decide (x.getD i 0 < x.getD (l - 1) 0) && decide (x.getD i 0 < x.getD (r + 1) 0) &&
  decide (i = (l + r) / 2)

def wleftMax (x : List ℚ) (xp : ℚ) : ℕ → Option ℚ
  | 0 => if xp ≤ x.getD 0 0 then some (x.getD 0 0) else none
  | j + 1 =>
      if xp ≤ x.getD (j + 1) 0 then
        some (match wleftMax x xp j with
              | some m => max (x.getD (j + 1) 0) m
              | none => x.getD (j + 1) 0)
      else none

def wrightMax (x : List ℚ) (xp : ℚ) : ℕ → ℕ → Option ℚ
  | 0, _ => none
  | fuel + 1, j =>
      if j < x.length ∧ xp ≤ x.getD j 0 then
        some (match wrightMax x xp fuel (j + 1) with
              | some m => max (x.getD j 0) m
              | none => x.getD j 0)
      else none

def troughProminence (x : List ℚ) (i : ℕ) : ℚ :=
  let xp := x.getD i 0
  let lm := (wleftMax x xp i).getD xp
  let rm := (wrightMax x xp (x.length - i) i).getD xp
  min lm rm - xp

def findTroughsDirect (x : List ℚ) (pmin : ℚ) : List ℕ :=
  ((List.range x.length).filter (isTroughIdx x)).filter
    (fun i => decide (pmin ≤ troughProminence x i))

end TrendAnalyzer

namespace AnomalyDetection

open PowerBI

/-- A cell of a pandas DataFrame column: a finite float, a boolean, or
`NaN`/missing. -/
inductive Cell
  | num (q : ℚ)
  | flag (b : Bool)
  | nan
  deriving DecidableEq, Repr

/-- A DataFrame column. -/
abbrev Col := List Cell

/-- A pandas DataFrame: ordered association list of named columns. -/
abbrev Frame := List (String × Col)

/-- Column lookup, `df[name]` (first match; `[]` for a missing key). -/
def getCol (df : Frame) (name : String) : Col :=
  ((df.find? (fun p => p.1 == name)).map Prod.snd).getD []

/-- Column assignment `df[name] = col`: replaces an existing column in
place, appends a new one at the end — pandas assignment semantics. -/
def setCol : Frame → String → Col → Frame
  | [], nm, c => [(nm, c)]
  | (n, v) :: t, nm, c => if n == nm then (nm, c) :: t else (n, v) :: setCol t nm c

/-- `df.columns`. -/
def colNames (df : Frame) : List String := df.map Prod.fst

/-- `len(df)`: the length of the first column (all columns of a well-formed
frame have equal length). -/
def nRows (df : Frame) : ℕ :=
  match df with
  | [] => 0
  | (_, c) :: _ => c.length

/-- Numeric view of a cell, as NumPy coerces values: booleans become 0/1,
`NaN` is missing. -/
def Cell.asNum : Cell → Option ℚ
  | num q => some q
  | flag b => some (if b then 1 else 0)
  | nan => none

/-- A column read as numbers-with-missing-values. -/
def numCol (df : Frame) (name : String) : List (Option ℚ) :=
  (getCol df name).map Cell.asNum

/-- Is this cell the boolean `True`?  (`sum` over a pandas boolean column
counts exactly these.) -/
def cellTrue : Cell → Bool
  | Cell.flag true => true
  | _ => false

/-- Does `small` occur as a prefix of `big`?  (On character lists.) -/
def startsList : List Char → List Char → Bool
  | [], _ => true
  | _ :: _, [] => false
  | a :: as, b :: bs => a == b && startsList as bs

/-- Does `needle` occur as a contiguous substring of `hay`?  (On character
lists.) -/
def subOccurs (needle : List Char) : List Char → Bool
  | [] => startsList needle []
  | c :: cs => startsList needle (c :: cs) || subOccurs needle cs

/-- Python's `needle in hay` on strings. -/
def strHasSub (hay needle : String) : Bool := subOccurs needle.data hay.data

/-- The non-missing entries of a column, in order (`NaN` skipped — the
`nan_policy='omit'` / `skipna` semantics). -/
def definedVals (xs : List (Option ℚ)) : List ℚ := xs.reduceOption

/-!
### Z-score detector (`detect_zscore`, `anomaly_detector.py` lines 72-93)

The code computes `z = |x - mean| / std` (population std, `ddof=0`,
missing values omitted) and flags `z > threshold`.  The standard deviation
is an irrational square root, so the flag is embedded in the equivalent
squared form `(x - mean)² > threshold² · variance` (both sides of the
original comparison are nonnegative for `threshold ≥ 0`; the `detect_all`
driver uses `threshold = 3`).  When the variance is zero or the value is
missing, the code's `z` is `NaN` and NumPy's `NaN > threshold` is `False`:
those rows carry an undefined flag, `none` here, stored as `False`.
-/

/-- Option-level z-score flags: `none` = undefined (missing value or zero
variance), `some b` = defined flag. -/
def zscoreFlagOpts (xs : List (Option ℚ)) (t : ℚ) : List (Option Bool) :=
  let vals := definedVals xs
  let μ := qmean vals
  let v := qvarPop vals
  xs.map (fun x? =>
    match x? with
    | none => none
    | some x => if v = 0 then none else some (decide ((x - μ) ^ 2 > t ^ 2 * v)))

/-- The `zscore_{column}` cells.  The code stores `z`; this embedding
stores `z²` (`NaN` where the code's `z` is `NaN`) — no claim reads the
numeric value, only the flags derived from it. -/
def zscoreSqCells (xs : List (Option ℚ)) : List Cell :=
  let vals := definedVals xs
  let μ := qmean vals
  let v := qvarPop vals
  xs.map (fun x? =>
    match x? with
    | none => Cell.nan
    | some x => if v = 0 then Cell.nan else Cell.num ((x - μ) ^ 2 / v))

def detect_zscore (df : Frame) (column : String) (t : ℚ) : Frame :=
  let xs := numCol df column
  let df1 := setCol df ("is_anomaly_zscore_" ++ column)
    ((zscoreFlagOpts xs t).map (fun o => Cell.flag (o.getD false)))
  setCol df1 ("zscore_" ++ column) (zscoreSqCells xs)

/-!
### IQR detector (`detect_iqr`, `anomaly_detector.py` lines 95-122)
-/

/-- Insert into a sorted list of rationals. -/
def insertSorted (x : ℚ) : List ℚ → List ℚ
  | [] => [x]
  | y :: t => if x ≤ y then x :: y :: t else y :: insertSorted x t

/-- Sort a list of rationals ascending (insertion sort). -/
def sortQ : List ℚ → List ℚ
  | [] => []
  | x :: t => insertSorted x (sortQ t)

/-- Pandas `Series.quantile(p)` with the default linear interpolation, on
an already sorted list of the non-missing values.  (`0` for the empty
list; the code's quantile of an all-`NaN` column is `NaN` and every
comparison with it is `False` — the flag functions below never consult the
quantile in that case.) -/
def quantileSorted (s : List ℚ) (p : ℚ) : ℚ :=
  if s.isEmpty then 0
  else
    let m := s.length
    let pos : ℚ := p * ((m : ℚ) - 1)
    let lo : ℕ := ⌊pos⌋.toNat
    let frac : ℚ := pos - (lo : ℚ)
    let a := s.getD lo 0
    let b := s.getD (min (lo + 1) (m - 1)) 0
    a + frac * (b - a)

/-- The IQR bounds `[Q1 - k·IQR, Q3 + k·IQR]` of the non-missing values;
`none` when the column holds no numbers (pandas: `NaN` bounds). -/
def iqrBounds (xs : List (Option ℚ)) (mult : ℚ) : Option (ℚ × ℚ) :=
  let vals := sortQ (definedVals xs)
  match vals with
  | [] => none
  | _ :: _ =>
    let q1 := quantileSorted vals (1/4)
    let q3 := quantileSorted vals (3/4)
    let iqr := q3 - q1
    some (q1 - mult * iqr, q3 + mult * iqr)

/-- Option-level IQR flags: `none` = undefined (missing value, or no
defined values at all so the bounds are `NaN`). -/
def iqrFlagOpts (xs : List (Option ℚ)) (mult : ℚ) : List (Option Bool) :=
  xs.map (fun x? =>
    match x?, iqrBounds xs mult with
    | some x, some (lb, ub) => some (decide (x < lb ∨ ub < x))
    | _, _ => none)

def detect_iqr (df : Frame) (column : String) (mult : ℚ) : Frame :=
  let xs := numCol df column
  let n := xs.length
  let boundCell : (ℚ × ℚ → ℚ) → Cell := fun f =>
    match iqrBounds xs mult with
    | some b => Cell.num (f b)
    | none => Cell.nan
  let df1 := setCol df ("is_anomaly_iqr_" ++ column)
    ((iqrFlagOpts xs mult).map (fun o => Cell.flag (o.getD false)))
  let df2 := setCol df1 ("iqr_lower_bound_" ++ column)
    (List.replicate n (boundCell Prod.fst))
  setCol df2 ("iqr_upper_bound_" ++ column) (List.replicate n (boundCell Prod.snd))

/-!
### Moving-average detector (`detect_moving_average_deviation`,
`anomaly_detector.py` lines 124-151)

`rolling(window=w, center=False)` uses the trailing window of `w` points
*including the current row* (`min_periods` defaults to the window size, so
the first `w - 1` rows get `NaN`), and `.std()` is the sample standard
deviation (`ddof = 1`, `NaN` for `w = 1`).  The comparison
`|x - mean| > t · std` is embedded in its squared form as for the z-score;
rows whose mean or std is `NaN` compare `False` (undefined flag, `none`).
-/

/-- The trailing window of `w` values ending at row `i` (inclusive), when
it is complete and free of missing values. -/
def windowAt (xs : List (Option ℚ)) (w i : ℕ) : Option (List ℚ) :=
  if i + 1 < w then none
  else
    let win := (xs.drop (i + 1 - w)).take w
    if win.all Option.isSome then some (definedVals win) else none

/-- Option-level moving-average flags.  `w < 2` gives `NaN` rolling std
everywhere (`ddof = 1`), hence undefined flags. -/
def maFlagOpts (xs : List (Option ℚ)) (w : ℕ) (t : ℚ) : List (Option Bool) :=
  (List.range xs.length).map (fun i =>
    if w < 2 then none
    else
      match windowAt xs w i, xs.getD i none with
      | some win, some x =>
          some (decide ((x - qmean win) ^ 2 > t ^ 2 * qvarSamp win))
      | _, _ => none)

/-- The `ma_{column}` cells (rolling mean, `NaN` until the window is
complete). -/
def maMeanCells (xs : List (Option ℚ)) (w : ℕ) : List Cell :=
  (List.range xs.length).map (fun i =>
    match windowAt xs w i with
    | some win => Cell.num (qmean win)
    | none => Cell.nan)

/-- The `std_{column}` cells.  The code stores the rolling sample std;
this embedding stores the rolling sample variance (its square) — no claim
reads the numeric value. -/
def maVarCells (xs : List (Option ℚ)) (w : ℕ) : List Cell :=
  (List.range xs.length).map (fun i =>
    match windowAt xs w i with
    | some win => if w < 2 then Cell.nan else Cell.num (qvarSamp win)
    | none => Cell.nan)

/-- The `deviation_{column}` cells: `|x - rolling_mean|`. -/
def maDevCells (xs : List (Option ℚ)) (w : ℕ) : List Cell :=
  (List.range xs.length).map (fun i =>
    match windowAt xs w i, xs.getD i none with
    | some win, some x => Cell.num |x - qmean win|
    | _, _ => Cell.nan)

def detect_moving_average_deviation (df : Frame) (column : String) (w : ℕ) (t : ℚ) : Frame :=
  let xs := numCol df column
  let df1 := setCol df ("ma_" ++ column) (maMeanCells xs w)
  let df2 := setCol df1 ("std_" ++ column) (maVarCells xs w)
  let df3 := setCol df2 ("deviation_" ++ column) (maDevCells xs w)
  setCol df3 ("is_anomaly_ma_" ++ column)
    ((maFlagOpts xs w t).map (fun o => Cell.flag (o.getD false)))

/-!
### Isolation-forest detector (`detect_isolation_forest`,
`anomaly_detector.py` lines 40-70)

`StandardScaler` + `IsolationForest` are external scikit-learn components;
they are modelled as abstract per-row predictor/score functions of the
`NaN`-imputed feature matrix, carried by the detector object (fixed seed
and tree count make them deterministic functions).  The repository code
performs no row-count validation and has no error path: it always fits
and returns one boolean flag and one numeric score per row.
-/

structure AnomalyDetector where
  contamination : ℚ
  isoPredict : List (List ℚ) → ℕ → Bool
  isoScore : List (List ℚ) → ℕ → ℚ

/-- `df[features]` with `np.nan_to_num(·, nan=0.0)` applied. -/
def featureMatrix (df : Frame) (features : List String) : List (List ℚ) :=
  (List.range (nRows df)).map (fun i =>
    features.map (fun c => ((numCol df c).getD i none).getD 0))

def detect_isolation_forest (d : AnomalyDetector) (df : Frame)
    (features : List String) : Frame :=
  let X := featureMatrix df features
  let n := nRows df
  let df1 := setCol df "is_anomaly_if"
    ((List.range n).map (fun i => Cell.flag (d.isoPredict X i)))
  setCol df1 "anomaly_score_if"
    ((List.range n).map (fun i => Cell.num (d.isoScore X i)))

/-!
### `detect_all` (`anomaly_detector.py` lines 153-187)

The driver optionally sorts by the date column, runs the isolation forest
over all numeric columns, then per column the z-score (threshold 3), IQR
(multiplier 1.5) and — when a date column was given — moving-average
(window 7, threshold 2) detectors, and finally derives `anomaly_count`
(row-wise sum of the boolean `is_anomaly*` columns, discovered by
substring) and `is_anomaly_consensus = anomaly_count >= 2`.

Alongside the frame, the embedding threads a ghost log: the ordered list
of produced flag columns together with their *option-level* flags, in
which `none` records that the detector was not applicable to the row
(missing value, zero variance, incomplete window) — exactly the rows whose
stored boolean collapsed to `False` through NumPy's `NaN` comparisons.
The log does not influence the frame computation.
-/

/-- Key order for `sort_values`: numbers ascending, `NaN` last. -/
def cellKeyLe (a b : Cell) : Bool :=
  match a.asNum, b.asNum with
  | some x, some y => decide (x ≤ y)
  | some _, none => true
  | none, some _ => false
  | none, none => true

/-- Stable insertion (equal keys keep first-come order). -/
def insertIdx (le : ℕ → ℕ → Bool) (x : ℕ) : List ℕ → List ℕ
  | [] => [x]
  | y :: t => if le y x then y :: insertIdx le x t else x :: y :: t

/-- Stable sort of row indices by a `Bool` preorder. -/
def stableSortIdx (le : ℕ → ℕ → Bool) (l : List ℕ) : List ℕ :=
  l.foldl (fun acc i => insertIdx le i acc) []

/-- `df.sort_values(dateCol)`: apply the stable row permutation given by
the key column to every column. -/
def sortFrame (df : Frame) (dateCol : String) : Frame :=
  let key := getCol df dateCol
  let perm := stableSortIdx
    (fun i j => cellKeyLe (key.getD i Cell.nan) (key.getD j Cell.nan))
    (List.range (nRows df))
  df.map (fun p => (p.1, perm.map (fun i => p.2.getD i Cell.nan)))

/-- Ghost log entry: produced flag-column name with its option-level
flags. -/
abbrev FlagLog := List (String × List (Option Bool))

/-- One iteration of the `for col in numeric_columns` loop. -/
def detectorsStep (dc? : Option String) :
    Frame × FlagLog → String → Frame × FlagLog :=
  fun acc col =>
    let df1 := detect_zscore acc.1 col 3
    let log1 := acc.2 ++ [("is_anomaly_zscore_" ++ col, zscoreFlagOpts (numCol acc.1 col) 3)]
    let df2 := detect_iqr df1 col (3/2)
    let log2 := log1 ++ [("is_anomaly_iqr_" ++ col, iqrFlagOpts (numCol df1 col) (3/2))]
    match dc? with
    | some _ =>
        (detect_moving_average_deviation df2 col 7 2,
         log2 ++ [("is_anomaly_ma_" ++ col, maFlagOpts (numCol df2 col) 7 2)])
    | none => (df2, log2)

/-- The frame and the ghost log after the detector loop of `detect_all`
(before the consensus step). -/
def detect_all_aux (d : AnomalyDetector) (data : Frame)
    (numeric_columns : List String) (dc? : Option String) : Frame × FlagLog :=
  let df0 := match dc? with
             | some dc => sortFrame data dc
             | none => data
  let df1 := detect_isolation_forest d df0 numeric_columns
  let log1 : FlagLog :=
    [("is_anomaly_if",
      (List.range (nRows df0)).map (fun i =>
        some (d.isoPredict (featureMatrix df0 numeric_columns) i)))]
  numeric_columns.foldl (detectorsStep dc?) (df1, log1)

/-- Number of `True` cells among the named columns at row `i` — the value
of `df[anomaly_columns].sum(axis=1)` at that row when all named columns
are boolean. -/
def voteCount (df : Frame) (names : List String) (i : ℕ) : ℕ :=
  names.countP (fun nm => cellTrue ((getCol df nm).getD i Cell.nan))

def detect_all (d : AnomalyDetector) (data : Frame)
    (numeric_columns : List String) (dc? : Option String) : Frame :=
  let df := (detect_all_aux d data numeric_columns dc?).1
  let anomaly_columns := (colNames df).filter (fun nm => strHasSub nm "is_anomaly")
  let counts := (List.range (nRows df)).map (voteCount df anomaly_columns)
  let df1 := setCol df "anomaly_count" (counts.map (fun c => Cell.num (c : ℚ)))
  setCol df1 "is_anomaly_consensus" (counts.map (fun c => Cell.flag (decide (2 ≤ c))))

/-!
### `get_anomaly_summary` (`anomaly_detector.py` lines 189-210)
-/

/-- Number of `True` cells of a boolean column (`Series.sum()`). -/
def trueCount (c : Col) : ℕ := c.countP cellTrue

structure AnomalySummary where
  total_records : ℕ
  method_counts : List (String × ℕ)
  consensus_anomalies : ℕ
  deriving DecidableEq, Repr

def get_anomaly_summary (data : Frame) : AnomalySummary :=
  let anomaly_columns := (colNames data).filter (fun nm => strHasSub nm "is_anomaly")
  { total_records := nRows data
    method_counts := anomaly_columns.map (fun nm => (nm, trueCount (getCol data nm)))
    consensus_anomalies :=
      if "is_anomaly_consensus" ∈ colNames data
      then trueCount (getCol data "is_anomaly_consensus") else 0 }

/-!
### Reference/copy discipline (`df = data.copy()` on lines 51, 84, 107,
137, 165)

Python frames are heap objects passed by reference; each detector's first
action is `data.copy()`, after which only the copy is written.  The store
model makes this observable: a store is a list of allocated frames, a
frame argument is an index into it, and each detection method allocates
the copy at a fresh index and returns that index.
-/

abbrev Store := List Frame

def detect_zscore_st (σ : Store) (r : ℕ) (column : String) (t : ℚ) : Store × ℕ :=
  (σ ++ [detect_zscore (σ.getD r []) column t], σ.length)

def detect_iqr_st (σ : Store) (r : ℕ) (column : String) (mult : ℚ) : Store × ℕ :=
  (σ ++ [detect_iqr (σ.getD r []) column mult], σ.length)

def detect_moving_average_deviation_st (σ : Store) (r : ℕ) (column : String)
    (w : ℕ) (t : ℚ) : Store × ℕ :=
  (σ ++ [detect_moving_average_deviation (σ.getD r []) column w t], σ.length)

def detect_isolation_forest_st (d : AnomalyDetector) (σ : Store) (r : ℕ)
    (features : List String) : Store × ℕ :=
  (σ ++ [detect_isolation_forest d (σ.getD r []) features], σ.length)

def detect_all_st (d : AnomalyDetector) (σ : Store) (r : ℕ)
    (numeric_columns : List String) (dc? : Option String) : Store × ℕ :=
  (σ ++ [detect_all d (σ.getD r []) numeric_columns dc?], σ.length)

/-! ### Basic frame lemmas -/

theorem getCol_setCol_self : ∀ (df : Frame) (nm : String) (c : Col),
    getCol (setCol df nm c) nm = c
  | [], nm, c => by simp [setCol, getCol]
  | (n, v) :: t, nm, c => by
      by_cases h : n = nm
      · subst h
        simp [setCol, getCol]
      · have hb : (n == nm) = false := beq_eq_false_iff_ne.mpr h
        have ih := getCol_setCol_self t nm c
        simp [setCol, hb, getCol, List.find?] at ih ⊢
        exact ih

theorem getCol_setCol_ne : ∀ (df : Frame) (nm nm' : String) (c : Col),
    nm' ≠ nm → getCol (setCol df nm c) nm' = getCol df nm'
  | [], nm, nm', c, h => by
      have hb : (nm == nm') = false := beq_eq_false_iff_ne.mpr (fun he => h he.symm)
      simp [setCol, getCol, List.find?, hb]
  | (n, v) :: t, nm, nm', c, h => by
      by_cases hn : n = nm
      · subst hn
        have hb : (n == nm') = false := beq_eq_false_iff_ne.mpr (fun he => h he.symm)
        simp [setCol, getCol, List.find?, hb]
      · have hb : (n == nm) = false := beq_eq_false_iff_ne.mpr hn
        by_cases hcur : n = nm'
        · subst hcur
          simp [setCol, hb, getCol, List.find?]
        · have hb' : (n == nm') = false := beq_eq_false_iff_ne.mpr hcur
          have ih := getCol_setCol_ne t nm nm' c h
          simp [setCol, hb, getCol, List.find?, hb'] at ih ⊢
          exact ih

theorem colNames_setCol_mem : ∀ (df : Frame) (nm : String) (c : Col),
    nm ∈ colNames df → colNames (setCol df nm c) = colNames df
  | [], nm, c, h => by simp [colNames] at h
  | (n, v) :: t, nm, c, h => by
      by_cases hn : n = nm
      · subst hn
        simp [setCol, colNames]
      · have h' : nm ∈ colNames t := by
          rcases (by simpa [colNames] using h) with h1 | h1
          · exact absurd h1.symm hn
          · simpa [colNames] using h1
        have hb : (n == nm) = false := beq_eq_false_iff_ne.mpr hn
        simp [setCol, hb, colNames] at *
        exact colNames_setCol_mem t nm c (by simpa [colNames] using h')
  termination_by df => df.length

theorem colNames_setCol_not_mem : ∀ (df : Frame) (nm : String) (c : Col),
    nm ∉ colNames df → colNames (setCol df nm c) = colNames df ++ [nm]
  | [], nm, c, h => by simp [setCol, colNames]
  | (n, v) :: t, nm, c, h => by
      have hcn : nm ≠ n ∧ nm ∉ colNames t := by simpa [colNames] using h
      have hb : (n == nm) = false := beq_eq_false_iff_ne.mpr (fun he => hcn.1 he.symm)
      simp [setCol, hb, colNames] at *
      exact colNames_setCol_not_mem t nm c (by simpa [colNames] using hcn.2)
  termination_by df => df.length

/-- C9: each detection method operates on a fresh copy (`data.copy()`):
the store of previously allocated frames is untouched (so every
pre-existing column and row of the caller's input is identical before and
after the call), and the returned reference is a newly allocated one. -/
theorem detectors_copy_input (d : AnomalyDetector) (σ : Store) (r : ℕ)
    (column : String) (features numeric_columns : List String)
    (t mult : ℚ) (w : ℕ) (dc? : Option String) :
    ((detect_zscore_st σ r column t).1.take σ.length = σ ∧
      (detect_zscore_st σ r column t).2 = σ.length ∧
      (detect_zscore_st σ r column t).1.length = σ.length + 1) ∧
    ((detect_iqr_st σ r column mult).1.take σ.length = σ ∧
      (detect_iqr_st σ r column mult).2 = σ.length ∧
      (detect_iqr_st σ r column mult).1.length = σ.length + 1) ∧
    ((detect_moving_average_deviation_st σ r column w t).1.take σ.length = σ ∧
      (detect_moving_average_deviation_st σ r column w t).2 = σ.length ∧
      (detect_moving_average_deviation_st σ r column w t).1.length = σ.length + 1) ∧
    ((detect_isolation_forest_st d σ r features).1.take σ.length = σ ∧
      (detect_isolation_forest_st d σ r features).2 = σ.length ∧
      (detect_isolation_forest_st d σ r features).1.length = σ.length + 1) ∧
    ((detect_all_st d σ r numeric_columns dc?).1.take σ.length = σ ∧
      (detect_all_st d σ r numeric_columns dc?).2 = σ.length ∧
      (detect_all_st d σ r numeric_columns dc?).1.length = σ.length + 1) := by
  refine ⟨⟨?_, rfl, ?_⟩, ⟨?_, rfl, ?_⟩, ⟨?_, rfl, ?_⟩, ⟨?_, rfl, ?_⟩, ⟨?_, rfl, ?_⟩⟩ <;>
    simp [detect_zscore_st, detect_iqr_st, detect_moving_average_deviation_st,
      detect_isolation_forest_st, detect_all_st]

/-- C10: on a frame without an `is_anomaly_consensus` column,
`get_anomaly_summary` still returns: consensus count 0, total row count,
and the per-method true counts of whatever `is_anomaly*` columns are
present. -/
theorem get_anomaly_summary_without_consensus (data : Frame)
    (h : "is_anomaly_consensus" ∉ colNames data) :
    (get_anomaly_summary data).consensus_anomalies = 0 ∧
    (get_anomaly_summary data).total_records = nRows data ∧
    (get_anomaly_summary data).method_counts =
      ((colNames data).filter (fun nm => strHasSub nm "is_anomaly")).map
        (fun nm => (nm, trueCount (getCol data nm))) := by
  refine ⟨?_, rfl, rfl⟩
  simp [get_anomaly_summary, h]

/-- Witness for `get_anomaly_summary_without_consensus` on a two-column
frame carrying one flag column. -/
theorem get_anomaly_summary_without_consensus_witness :
    ("is_anomaly_consensus" ∉
        colNames [("a", [Cell.num 1, Cell.num 2]),
                  ("is_anomaly_zscore_a", [Cell.flag true, Cell.flag false])]) ∧
    ((get_anomaly_summary [("a", [Cell.num 1, Cell.num 2]),
        ("is_anomaly_zscore_a", [Cell.flag true, Cell.flag false])]).consensus_anomalies = 0 ∧
      (get_anomaly_summary [("a", [Cell.num 1, Cell.num 2]),
        ("is_anomaly_zscore_a", [Cell.flag true, Cell.flag false])]).total_records = 2 ∧
      (get_anomaly_summary [("a", [Cell.num 1, Cell.num 2]),
        ("is_anomaly_zscore_a", [Cell.flag true, Cell.flag false])]).method_counts =
        [("is_anomaly_zscore_a", 1)]) := by
  have h : "is_anomaly_consensus" ∉
      colNames [("a", [Cell.num 1, Cell.num 2]),
                ("is_anomaly_zscore_a", [Cell.flag true, Cell.flag false])] := by
    decide
  have hm := get_anomaly_summary_without_consensus
    [("a", [Cell.num 1, Cell.num 2]),
     ("is_anomaly_zscore_a", [Cell.flag true, Cell.flag false])] h
  refine ⟨h, hm.1, hm.2.1.trans (by decide), hm.2.2.trans (by decide)⟩

/-- C4 (amended): `detect_isolation_forest` performs no row-count
validation and has no failure path; for every input frame — with any
number of rows — it returns one boolean outlier flag and one numeric
anomaly score per row. -/
theorem detect_isolation_forest_total (d : AnomalyDetector) (df : Frame)
    (features : List String) :
    (getCol (detect_isolation_forest d df features) "is_anomaly_if").length = nRows df ∧
    (getCol (detect_isolation_forest d df features) "anomaly_score_if").length = nRows df ∧
    (getCol (detect_isolation_forest d df features) "is_anomaly_if").all
      (fun cell => match cell with | Cell.flag _ => true | _ => false) = true ∧
    (getCol (detect_isolation_forest d df features) "anomaly_score_if").all
      (fun cell => match cell with | Cell.num _ => true | _ => false) = true := by
  have hne : ("is_anomaly_if" : String) ≠ "anomaly_score_if" := by decide
  unfold detect_isolation_forest
  rw [getCol_setCol_self, getCol_setCol_ne _ _ _ _ hne, getCol_setCol_self]
  refine ⟨by simp, by simp, ?_, ?_⟩ <;> simp [List.all_eq_true]

/-! ### Constant series (C5) -/

theorem reduceOption_replicate_some (n : ℕ) (c : ℚ) :
    (List.replicate n (some c)).reduceOption = List.replicate n c := by
  induction n with
  | zero => simp
  | succ n ih => simp [List.replicate_succ, List.reduceOption_cons_of_some, ih]

theorem qvarPop_replicate (n : ℕ) (c : ℚ) : qvarPop (List.replicate n c) = 0 := by
  rcases n with _ | n
  · simp [qvarPop, qsum]
  · rw [qvarPop, qmean_replicate _ _ (Nat.succ_ne_zero n)]
    simp [List.map_replicate, qsum_replicate]

theorem insertSorted_replicate (n : ℕ) (c : ℚ) :
    insertSorted c (List.replicate n c) = List.replicate (n + 1) c := by
  cases n with
  | zero => simp [insertSorted]
  | succ n => simp [List.replicate_succ, insertSorted]

theorem sortQ_replicate (n : ℕ) (c : ℚ) :
    sortQ (List.replicate n c) = List.replicate n c := by
  induction n with
  | zero => simp [sortQ]
  | succ n ih =>
      rw [List.replicate_succ, sortQ, ih, insertSorted_replicate]
      exact (List.replicate_succ c n).symm

theorem getD_replicate_lt (n i : ℕ) (c d : ℚ) (h : i < n) :
    (List.replicate n c).getD i d = c := by
  rw [List.getD_eq_getElem?_getD, List.getElem?_replicate]
  simp [h]

theorem quantileSorted_replicate (n : ℕ) (c p : ℚ) (hn : n ≠ 0)
    (_hp0 : 0 ≤ p) (hp1 : p ≤ 1) :
    quantileSorted (List.replicate n c) p = c := by
  rcases n with _ | n
  · exact absurd rfl hn
  · unfold quantileSorted
    have hne : (List.replicate (n + 1) c).isEmpty = false := by
      simp [List.replicate_succ]
    rw [hne]
    simp only [Bool.false_eq_true, if_false, List.length_replicate]
    have hget : ∀ i, i ≤ n → (List.replicate (n + 1) c).getD i 0 = c := by
      intro i hi
      exact getD_replicate_lt (n + 1) i c 0 (by omega)
    have hposn : p * ((n + 1 : ℚ) - 1) ≤ (n : ℚ) := by
      have h0 : (0 : ℚ) ≤ (n : ℚ) := by positivity
      nlinarith
    have hflo : ⌊p * (((n : ℚ) + 1) - 1)⌋.toNat ≤ n := by
      have h1 : (⌊p * (((n : ℚ) + 1) - 1)⌋ : ℚ) ≤ (n : ℚ) :=
        le_trans (Int.floor_le _) (by linarith)
      have h2 : ⌊p * (((n : ℚ) + 1) - 1)⌋ ≤ (n : ℤ) := by exact_mod_cast h1
      omega
    push_cast
    rw [hget _ hflo, hget _ (by omega)]
    ring

theorem iqrBounds_replicate (n : ℕ) (c mult : ℚ) (hn : n ≠ 0) :
    iqrBounds (List.replicate n (some c)) mult = some (c, c) := by
  unfold iqrBounds definedVals
  rw [reduceOption_replicate_some, sortQ_replicate]
  rcases n with _ | n
  · exact absurd rfl hn
  · rw [List.replicate_succ]
    show (let q1 := quantileSorted (c :: List.replicate n c) (1/4);
          let q3 := quantileSorted (c :: List.replicate n c) (3/4);
          let iqr := q3 - q1
          some (q1 - mult * iqr, q3 + mult * iqr)) = some (c, c)
    have h1 := quantileSorted_replicate (n + 1) c (1/4) (Nat.succ_ne_zero n)
      (by norm_num) (by norm_num)
    have h3 := quantileSorted_replicate (n + 1) c (3/4) (Nat.succ_ne_zero n)
      (by norm_num) (by norm_num)
    rw [List.replicate_succ] at h1 h3
    simp only [h1, h3]
    norm_num

/-- C5: on a constant column (every value equal), `detect_zscore` and
`detect_iqr` both return — no division-by-zero failure, the `NaN`
comparisons of the code collapse to `False` — and flag no row as
anomalous. -/
theorem constant_series_no_zscore_iqr_flags (df : Frame) (column : String)
    (n : ℕ) (c : ℚ) (h : getCol df column = List.replicate n (Cell.num c)) :
    getCol (detect_zscore df column 3) ("is_anomaly_zscore_" ++ column)
      = List.replicate n (Cell.flag false) ∧
    getCol (detect_iqr df column (3/2)) ("is_anomaly_iqr_" ++ column)
      = List.replicate n (Cell.flag false) := by
  have hxs : numCol df column = List.replicate n (some c) := by
    rw [numCol, h, List.map_replicate]
    rfl
  constructor
  · have hne : ("zscore_" ++ column) ≠ ("is_anomaly_zscore_" ++ column) := by
      intro he
      have h2 := congrArg String.data he
      simp [String.data_append] at h2
    unfold detect_zscore
    rw [getCol_setCol_ne _ _ _ _ (fun he => hne he.symm), getCol_setCol_self, hxs]
    unfold zscoreFlagOpts definedVals
    simp only [reduceOption_replicate_some, qvarPop_replicate]
    simp [List.map_replicate]
  · have hne1 : ("iqr_lower_bound_" ++ column) ≠ ("is_anomaly_iqr_" ++ column) := by
      intro he
      have h2 := congrArg String.data he
      simp [String.data_append] at h2
    have hne2 : ("iqr_upper_bound_" ++ column) ≠ ("is_anomaly_iqr_" ++ column) := by
      intro he
      have h2 := congrArg String.data he
      simp [String.data_append] at h2
    unfold detect_iqr
    rw [getCol_setCol_ne _ _ _ _ (fun he => hne2 he.symm),
      getCol_setCol_ne _ _ _ _ (fun he => hne1 he.symm), getCol_setCol_self, hxs]
    rcases Nat.eq_zero_or_pos n with hn | hn
    · subst hn
      simp [iqrFlagOpts]
    · unfold iqrFlagOpts
      simp only [iqrBounds_replicate n c (3/2) (Nat.pos_iff_ne_zero.mp hn)]
      simp [List.map_replicate]

/-- Witness for `constant_series_no_zscore_iqr_flags` on the constant
two-row column `[5, 5]`. -/
theorem constant_series_no_zscore_iqr_flags_witness :
    (getCol [("x", [Cell.num 5, Cell.num 5])] "x"
        = List.replicate 2 (Cell.num 5)) ∧
    (getCol (detect_zscore [("x", [Cell.num 5, Cell.num 5])] "x" 3)
        ("is_anomaly_zscore_" ++ "x") = List.replicate 2 (Cell.flag false) ∧
      getCol (detect_iqr [("x", [Cell.num 5, Cell.num 5])] "x" (3/2))
        ("is_anomaly_iqr_" ++ "x") = List.replicate 2 (Cell.flag false)) :=
  ⟨by decide, constant_series_no_zscore_iqr_flags
      [("x", [Cell.num 5, Cell.num 5])] "x" 2 5 (by decide)⟩

/-! ### String facts for flag-column discovery -/

theorem startsList_append (ns : List Char) : ∀ (hs ts : List Char),
    startsList ns hs = true → startsList ns (hs ++ ts) = true := by
  induction ns with
  | nil => intro hs ts _; rfl
  | cons a as ih =>
      intro hs ts h
      cases hs with
      | nil => simp [startsList] at h
      | cons b bs =>
          simp only [startsList, Bool.and_eq_true] at h
          simp only [List.cons_append, startsList, Bool.and_eq_true]
          exact ⟨h.1, ih bs ts h.2⟩

theorem subOccurs_of_starts (ns hs : List Char) (h : startsList ns hs = true)
    (hne : hs ≠ []) : subOccurs ns hs = true := by
  cases hs with
  | nil => exact absurd rfl hne
  | cons b bs => simp [subOccurs, h]

/-- Any flag-column name, `is_anomaly_…` followed by anything, is found by
the substring discovery. -/
theorem strHasSub_flag_prefix (lit c : String)
    (h : startsList ("is_anomaly".data) lit.data = true) (hlit : lit.data ≠ []) :
    strHasSub (lit ++ c) "is_anomaly" = true := by
  unfold strHasSub
  rw [String.data_append]
  apply subOccurs_of_starts
  · exact startsList_append _ _ _ h
  · intro he
    exact hlit (List.append_eq_nil.mp he).1

theorem ne_of_strHasSub_ne {a b : String}
    (ha : strHasSub a "is_anomaly" = true) (hb : strHasSub b "is_anomaly" = false) :
    a ≠ b := fun he => by
  rw [he] at ha
  rw [ha] at hb
  cases hb

theorem str_append_left_cancel {p c c' : String} (h : p ++ c = p ++ c') : c = c' := by
  have h2 := congrArg String.data h
  rw [String.data_append, String.data_append] at h2
  exact String.ext (List.append_cancel_left h2)

theorem zname_ne_iname (c c' : String) :
    ("is_anomaly_zscore_" ++ c) ≠ ("is_anomaly_iqr_" ++ c') := by
  intro h
  have h2 := congrArg String.data h
  simp [String.data_append] at h2

theorem zname_ne_mname (c c' : String) :
    ("is_anomaly_zscore_" ++ c) ≠ ("is_anomaly_ma_" ++ c') := by
  intro h
  have h2 := congrArg String.data h
  simp [String.data_append] at h2

theorem iname_ne_mname (c c' : String) :
    ("is_anomaly_iqr_" ++ c) ≠ ("is_anomaly_ma_" ++ c') := by
  intro h
  have h2 := congrArg String.data h
  simp [String.data_append] at h2

theorem zname_ne_ifname (c : String) :
    ("is_anomaly_zscore_" ++ c) ≠ "is_anomaly_if" := by
  intro h
  have h2 := congrArg String.data h
  have hd : ("is_anomaly_if" : String).data
      = ['i','s','_','a','n','o','m','a','l','y','_','i','f'] := rfl
  rw [String.data_append, hd] at h2
  simp at h2

theorem iname_ne_ifname (c : String) :
    ("is_anomaly_iqr_" ++ c) ≠ "is_anomaly_if" := by
  intro h
  have h2 := congrArg String.data h
  have hd : ("is_anomaly_if" : String).data
      = ['i','s','_','a','n','o','m','a','l','y','_','i','f'] := rfl
  rw [String.data_append, hd] at h2
  simp at h2

theorem mname_ne_ifname (c : String) :
    ("is_anomaly_ma_" ++ c) ≠ "is_anomaly_if" := by
  intro h
  have h2 := congrArg String.data h
  have hd : ("is_anomaly_if" : String).data
      = ['i','s','_','a','n','o','m','a','l','y','_','i','f'] := rfl
  rw [String.data_append, hd] at h2
  simp at h2

/-! ### Moving-average window discipline (C6) -/

theorem qsum_nonneg (l : List ℚ) (h : ∀ x ∈ l, 0 ≤ x) : 0 ≤ qsum l := by
  induction l with
  | nil => simp
  | cons x t ih =>
      rw [qsum_cons]
      have hx := h x (List.mem_cons_self x t)
      have ht := ih (fun y hy => h y (List.mem_cons_of_mem x hy))
      linarith

theorem qvarSamp_nonneg (l : List ℚ) : 0 ≤ qvarSamp l := by
  unfold qvarSamp
  rcases l with _ | ⟨x, t⟩
  · simp
  · apply div_nonneg
    · exact qsum_nonneg _ (by
        intro y hy
        rcases List.mem_map.mp hy with ⟨z, _, rfl⟩
        positivity)
    · simp only [List.length_cons]
      push_cast
      linarith [Nat.cast_nonneg (α := ℚ) t.length]

/-- Squared-comparison bridge: for `t ≥ 0` and `v ≥ 0`,
`(x - μ)² > t²·v` is exactly the code's `|x - μ| > t·√v`. -/
theorem sq_gt_iff_abs_gt_sqrt (a t v : ℚ) (ht : 0 ≤ t) (hv : 0 ≤ v) :
    (a ^ 2 > t ^ 2 * v) ↔ |(a : ℝ)| > (t : ℝ) * Real.sqrt (v : ℝ) := by
  have hvR : (0 : ℝ) ≤ (v : ℝ) := by exact_mod_cast hv
  have htR : (0 : ℝ) ≤ (t : ℝ) := by exact_mod_cast ht
  have hsq : Real.sqrt (v : ℝ) ^ 2 = (v : ℝ) := Real.sq_sqrt hvR
  constructor
  · intro h
    have hR : ((a : ℝ)) ^ 2 > (t : ℝ) ^ 2 * (v : ℝ) := by exact_mod_cast h
    by_contra hc
    push_neg at hc
    have h2 : |(a : ℝ)| ^ 2 ≤ ((t : ℝ) * Real.sqrt (v : ℝ)) ^ 2 :=
      pow_le_pow_left₀ (abs_nonneg _) hc 2
    rw [sq_abs, mul_pow, hsq] at h2
    linarith
  · intro h
    have h2 : ((t : ℝ) * Real.sqrt (v : ℝ)) ^ 2 < |(a : ℝ)| ^ 2 :=
      pow_lt_pow_left₀ h (by positivity) (by norm_num)
    rw [sq_abs, mul_pow, hsq] at h2
    exact_mod_cast h2

/-- C6 (amended): `detect_moving_average_deviation` computes rolling mean
and *sample* standard deviation over the trailing window of `w` points
that includes the current row, so a row is disqualified (undefined flag,
stored `False`) until `w - 1` prior points exist — not `w` — and a row
with a complete, gap-free window is flagged exactly when
`|value − rolling_mean| > threshold · rolling_std`. -/
theorem moving_average_deviation_flags (df : Frame) (column : String)
    (w : ℕ) (t : ℚ) (i : ℕ) (hw : 2 ≤ w) (ht : 0 ≤ t) :
    getCol (detect_moving_average_deviation df column w t) ("is_anomaly_ma_" ++ column)
      = (maFlagOpts (numCol df column) w t).map (fun o => Cell.flag (o.getD false)) ∧
    (i + 1 < w → (maFlagOpts (numCol df column) w t).getD i none = none) ∧
    (∀ win x, windowAt (numCol df column) w i = some win →
      (numCol df column).getD i none = some x →
      i < (numCol df column).length →
      ((maFlagOpts (numCol df column) w t).getD i none = some true ↔
        |(x : ℝ) - ((qmean win : ℚ) : ℝ)|
          > (t : ℝ) * Real.sqrt ((qvarSamp win : ℚ) : ℝ)) ∧
      ((maFlagOpts (numCol df column) w t).getD i none = some false ↔
        ¬ |(x : ℝ) - ((qmean win : ℚ) : ℝ)|
            > (t : ℝ) * Real.sqrt ((qvarSamp win : ℚ) : ℝ))) := by
  have hw2 : ¬ w < 2 := Nat.not_lt.mpr hw
  refine ⟨?_, ?_, ?_⟩
  · unfold detect_moving_average_deviation
    rw [getCol_setCol_self]
  · intro hlt
    rcases Nat.lt_or_ge i (numCol df column).length with hin | hout
    · unfold maFlagOpts
      rw [List.getD_eq_getElem?_getD, List.getElem?_map, List.getElem?_range hin]
      simp only [Option.map_some, Option.getD_some, hw2, if_false]
      unfold windowAt
      simp [hlt]
    · rw [List.getD_eq_getElem?_getD,
        List.getElem?_eq_none (by simp [maFlagOpts]; exact hout)]
      rfl
  · intro win x hwin hx hin
    have hbase : (maFlagOpts (numCol df column) w t).getD i none
        = some (decide ((x - qmean win) ^ 2 > t ^ 2 * qvarSamp win)) := by
      unfold maFlagOpts
      rw [List.getD_eq_getElem?_getD, List.getElem?_map, List.getElem?_range hin]
      rw [List.getD_eq_getElem?_getD] at hx
      simp [hw2, hwin, hx]
    have hbridge := sq_gt_iff_abs_gt_sqrt (x - qmean win) t (qvarSamp win) ht
      (qvarSamp_nonneg win)
    push_cast at hbridge
    constructor
    · rw [hbase]
      simp only [Option.some.injEq, decide_eq_true_eq]
      exact hbridge
    · rw [hbase]
      simp only [Option.some.injEq, decide_eq_false_iff_not]
      exact not_congr hbridge

/-- C6 (counterexample): with the default window 7 and threshold 2, row 6
of the series `[0,0,0,0,0,0,7]` has only 6 — fewer than `w = 7` — prior
points, yet `detect_moving_average_deviation` flags it: the trailing
pandas window includes the current row, so a row qualifies as soon as
`w - 1` prior points exist. -/
theorem ma_flag_fires_without_w_prior_points :
    (6 : ℕ) < 7 ∧
    (getCol (detect_moving_average_deviation
        [("x", [Cell.num 0, Cell.num 0, Cell.num 0, Cell.num 0, Cell.num 0,
                Cell.num 0, Cell.num 7])] "x" 7 2)
      ("is_anomaly_ma_" ++ "x")).getD 6 Cell.nan = Cell.flag true := by
  refine ⟨by norm_num, ?_⟩
  unfold detect_moving_average_deviation
  rw [getCol_setCol_self]
  have hxs : numCol
      [("x", [Cell.num 0, Cell.num 0, Cell.num 0, Cell.num 0, Cell.num 0,
              Cell.num 0, Cell.num 7])] "x"
      = [some 0, some 0, some 0, some 0, some 0, some 0, some 7] := by
    decide
  rw [hxs]
  have h6 : (6 : ℕ) < ([some (0:ℚ), some 0, some 0, some 0, some 0, some 0,
      some 7] : List (Option ℚ)).length := by norm_num
  rw [List.getD_eq_getElem?_getD]
  unfold maFlagOpts
  rw [List.getElem?_map, List.getElem?_map, List.getElem?_range (by norm_num)]
  norm_num [windowAt, definedVals, qmean, qvarSamp, qsum]

/-- Witness for `moving_average_deviation_flags` at the series `[0, 1]`,
window 2, threshold 2, row 0. -/
theorem moving_average_deviation_flags_witness :
    (2 : ℕ) ≤ 2 ∧ (0 : ℚ) ≤ 2 ∧
    (getCol (detect_moving_average_deviation
          [("x", [Cell.num 0, Cell.num 1])] "x" 2 2) ("is_anomaly_ma_" ++ "x")
        = (maFlagOpts (numCol [("x", [Cell.num 0, Cell.num 1])] "x") 2 2).map
            (fun o => Cell.flag (o.getD false)) ∧
      ((0 : ℕ) + 1 < 2 →
        (maFlagOpts (numCol [("x", [Cell.num 0, Cell.num 1])] "x") 2 2).getD 0 none
          = none) ∧
      (∀ win x,
        windowAt (numCol [("x", [Cell.num 0, Cell.num 1])] "x") 2 0 = some win →
        (numCol [("x", [Cell.num 0, Cell.num 1])] "x").getD 0 none = some x →
        0 < (numCol [("x", [Cell.num 0, Cell.num 1])] "x").length →
        ((maFlagOpts (numCol [("x", [Cell.num 0, Cell.num 1])] "x") 2 2).getD 0 none
            = some true ↔
          |(x : ℝ) - ((qmean win : ℚ) : ℝ)|
            > ((2 : ℚ) : ℝ) * Real.sqrt ((qvarSamp win : ℚ) : ℝ)) ∧
        ((maFlagOpts (numCol [("x", [Cell.num 0, Cell.num 1])] "x") 2 2).getD 0 none
            = some false ↔
          ¬ |(x : ℝ) - ((qmean win : ℚ) : ℝ)|
              > ((2 : ℚ) : ℝ) * Real.sqrt ((qvarSamp win : ℚ) : ℝ)))) :=
  ⟨le_refl 2, by norm_num,
    moving_average_deviation_flags [("x", [Cell.num 0, Cell.num 1])] "x" 2 2 0
      (le_refl 2) (by norm_num)⟩

/-! ### Consensus invariant (C1)

`votesAt` is the claim's per-row vote count: the number of `True` flags
across the produced detector flag columns, a disqualified/undefined flag
counting as false.  `applicableAt` is the number of detectors that were
applicable to (produced a defined flag for) the row.
-/

def votesAt (log : FlagLog) (i : ℕ) : ℕ :=
  log.countP (fun e => e.2.getD i none == some true)

def applicableAt (log : FlagLog) (i : ℕ) : ℕ :=
  log.countP (fun e => (e.2.getD i none).isSome)

theorem votesAt_le_applicableAt (log : FlagLog) (i : ℕ) :
    votesAt log i ≤ applicableAt log i := by
  unfold votesAt applicableAt
  apply List.countP_mono_left
  intro e _ h
  have h2 : e.2.getD i none = some true := by simpa using h
  rw [List.getD_eq_getElem?_getD] at h2
  simp [h2]

/-- The flag columns the consensus step of `detect_all` discovers. -/
def flagCols (df : Frame) : List String :=
  (colNames df).filter (fun nm => strHasSub nm "is_anomaly")

/-- The correspondence `detect_all` maintains between the frame and the
ghost log: the discovered flag columns are exactly the logged ones in
production order, and each stores its option-level flags with `none`
collapsed to `False`. -/
def ConsInv (df : Frame) (log : FlagLog) : Prop :=
  flagCols df = log.map Prod.fst ∧
  ∀ e ∈ log, getCol df e.1 = e.2.map (fun o => Cell.flag (o.getD false))

/-- No logged column is named like a flag column of one of the still
unprocessed numeric columns. -/
def FreshFor (log : FlagLog) (cols : List String) : Prop :=
  ∀ e ∈ log, ∀ c ∈ cols,
    e.1 ≠ "is_anomaly_zscore_" ++ c ∧ e.1 ≠ "is_anomaly_iqr_" ++ c ∧
    e.1 ≠ "is_anomaly_ma_" ++ c

/-- The aux-name cleanliness `detect_all`'s discovery step needs from a
numeric column name. -/
def CleanCol (c : String) : Prop :=
  strHasSub c "is_anomaly" = false ∧
  strHasSub ("zscore_" ++ c) "is_anomaly" = false ∧
  strHasSub ("iqr_lower_bound_" ++ c) "is_anomaly" = false ∧
  strHasSub ("iqr_upper_bound_" ++ c) "is_anomaly" = false ∧
  strHasSub ("ma_" ++ c) "is_anomaly" = false ∧
  strHasSub ("std_" ++ c) "is_anomaly" = false ∧
  strHasSub ("deviation_" ++ c) "is_anomaly" = false

theorem flagCols_setCol_nonflag (df : Frame) (nm : String) (c : Col)
    (h : strHasSub nm "is_anomaly" = false) :
    flagCols (setCol df nm c) = flagCols df := by
  unfold flagCols
  by_cases hm : nm ∈ colNames df
  · rw [colNames_setCol_mem df nm c hm]
  · rw [colNames_setCol_not_mem df nm c hm, List.filter_append]
    simp [h]

theorem flagCols_setCol_flag (df : Frame) (nm : String) (c : Col)
    (ht : strHasSub nm "is_anomaly" = true) (hm : nm ∉ colNames df) :
    flagCols (setCol df nm c) = flagCols df ++ [nm] := by
  unfold flagCols
  rw [colNames_setCol_not_mem df nm c hm, List.filter_append]
  simp [ht]

theorem not_mem_colNames_of_fresh (df : Frame) (log : FlagLog) (nm : String)
    (hInv : ConsInv df log) (ht : strHasSub nm "is_anomaly" = true)
    (hnotlog : ∀ e ∈ log, e.1 ≠ nm) : nm ∉ colNames df := by
  intro hm
  have hf : nm ∈ flagCols df := List.mem_filter.mpr ⟨hm, ht⟩
  rw [hInv.1] at hf
  rcases List.mem_map.mp hf with ⟨e, he, rfl⟩
  exact hnotlog e he rfl

theorem log_name_hasSub (df : Frame) (log : FlagLog) (hInv : ConsInv df log)
    (e : String × List (Option Bool)) (he : e ∈ log) :
    strHasSub e.1 "is_anomaly" = true := by
  have h1 : e.1 ∈ flagCols df := by
    rw [hInv.1]
    exact List.mem_map_of_mem Prod.fst he
  exact (List.mem_filter.mp h1).2

theorem ConsInv_setCol_nonflag (df : Frame) (log : FlagLog) (nm : String) (col : Col)
    (h : strHasSub nm "is_anomaly" = false) (hInv : ConsInv df log) :
    ConsInv (setCol df nm col) log := by
  constructor
  · rw [flagCols_setCol_nonflag _ _ _ h]
    exact hInv.1
  · intro e he
    rw [getCol_setCol_ne _ _ _ _ (ne_of_strHasSub_ne (log_name_hasSub df log hInv e he) h)]
    exact hInv.2 e he

theorem ConsInv_setCol_flag (df : Frame) (log : FlagLog) (nm : String)
    (opts : List (Option Bool))
    (ht : strHasSub nm "is_anomaly" = true)
    (hfresh : ∀ e ∈ log, e.1 ≠ nm) (hInv : ConsInv df log) :
    ConsInv (setCol df nm (opts.map (fun o => Cell.flag (o.getD false))))
      (log ++ [(nm, opts)]) := by
  have hnm : nm ∉ colNames df := not_mem_colNames_of_fresh df log nm hInv ht hfresh
  constructor
  · rw [flagCols_setCol_flag _ _ _ ht hnm, hInv.1, List.map_append]
    rfl
  · intro e he
    rcases List.mem_append.mp he with h1 | h1
    · rw [getCol_setCol_ne _ _ _ _ (hfresh e h1)]
      exact hInv.2 e h1
    · have he2 : e = (nm, opts) := by simpa using h1
      subst he2
      exact getCol_setCol_self _ _ _

theorem detectorsStep_inv (dc? : Option String) (df : Frame) (log : FlagLog)
    (c : String) (cols' : List String)
    (hInv : ConsInv df log) (hF : FreshFor log (c :: cols'))
    (hcc : c ∉ cols') (hclean : CleanCol c) :
    ConsInv (detectorsStep dc? (df, log) c).1 (detectorsStep dc? (df, log) c).2 ∧
    FreshFor (detectorsStep dc? (df, log) c).2 cols' := by
  obtain ⟨_hc0, hc1, hc2, hc3, hc4, hc5, hc6⟩ := hclean
  have hzn : strHasSub ("is_anomaly_zscore_" ++ c) "is_anomaly" = true :=
    strHasSub_flag_prefix _ c (by decide) (by decide)
  have hin : strHasSub ("is_anomaly_iqr_" ++ c) "is_anomaly" = true :=
    strHasSub_flag_prefix _ c (by decide) (by decide)
  have hmn : strHasSub ("is_anomaly_ma_" ++ c) "is_anomaly" = true :=
    strHasSub_flag_prefix _ c (by decide) (by decide)
  have hmemc : c ∈ c :: cols' := List.mem_cons_self c cols'
  -- Stage 1: z-score detector.
  have hfz : ∀ e ∈ log, e.1 ≠ "is_anomaly_zscore_" ++ c :=
    fun e he => (hF e he c hmemc).1
  have I1 : ConsInv (detect_zscore df c 3)
      (log ++ [("is_anomaly_zscore_" ++ c, zscoreFlagOpts (numCol df c) 3)]) := by
    unfold detect_zscore
    exact ConsInv_setCol_nonflag _ _ _ _ hc1
      (ConsInv_setCol_flag _ _ _ _ hzn hfz hInv)
  -- Stage 2: IQR detector.
  have hfi : ∀ e ∈ log ++ [("is_anomaly_zscore_" ++ c, zscoreFlagOpts (numCol df c) 3)],
      e.1 ≠ "is_anomaly_iqr_" ++ c := by
    intro e he
    rcases List.mem_append.mp he with h1 | h1
    · exact (hF e h1 c hmemc).2.1
    · have he2 : e = ("is_anomaly_zscore_" ++ c, zscoreFlagOpts (numCol df c) 3) := by
        simpa using h1
      subst he2
      exact zname_ne_iname c c
  have I2 : ConsInv (detect_iqr (detect_zscore df c 3) c (3/2))
      ((log ++ [("is_anomaly_zscore_" ++ c, zscoreFlagOpts (numCol df c) 3)]) ++
        [("is_anomaly_iqr_" ++ c, iqrFlagOpts (numCol (detect_zscore df c 3) c) (3/2))]) := by
    unfold detect_iqr
    exact ConsInv_setCol_nonflag _ _ _ _ hc3
      (ConsInv_setCol_nonflag _ _ _ _ hc2
        (ConsInv_setCol_flag _ _ _ _ hin hfi I1))
  -- Freshness of the two-stage log for the remaining columns.
  have hF2 : FreshFor
      ((log ++ [("is_anomaly_zscore_" ++ c, zscoreFlagOpts (numCol df c) 3)]) ++
        [("is_anomaly_iqr_" ++ c, iqrFlagOpts (numCol (detect_zscore df c 3) c) (3/2))])
      cols' := by
    intro e he c'' hc''
    rcases List.mem_append.mp he with h1 | h1
    · rcases List.mem_append.mp h1 with h2 | h2
      · exact hF e h2 c'' (List.mem_cons_of_mem c hc'')
      · have he2 : e = ("is_anomaly_zscore_" ++ c, zscoreFlagOpts (numCol df c) 3) := by
          simpa using h2
        subst he2
        refine ⟨?_, zname_ne_iname c c'', zname_ne_mname c c''⟩
        intro h
        exact hcc (str_append_left_cancel h ▸ hc'')
    · have he2 : e = ("is_anomaly_iqr_" ++ c,
          iqrFlagOpts (numCol (detect_zscore df c 3) c) (3/2)) := by
        simpa using h1
      subst he2
      refine ⟨fun h => zname_ne_iname c'' c h.symm, ?_, iname_ne_mname c c''⟩
      intro h
      exact hcc (str_append_left_cancel h ▸ hc'')
  rcases dc? with _ | dc
  · exact ⟨I2, hF2⟩
  · -- Stage 3: moving-average detector.
    have hfm : ∀ e ∈ (log ++ [("is_anomaly_zscore_" ++ c, zscoreFlagOpts (numCol df c) 3)]) ++
        [("is_anomaly_iqr_" ++ c, iqrFlagOpts (numCol (detect_zscore df c 3) c) (3/2))],
        e.1 ≠ "is_anomaly_ma_" ++ c := by
      intro e he
      rcases List.mem_append.mp he with h1 | h1
      · rcases List.mem_append.mp h1 with h2 | h2
        · exact (hF e h2 c hmemc).2.2
        · have he2 : e = ("is_anomaly_zscore_" ++ c, zscoreFlagOpts (numCol df c) 3) := by
            simpa using h2
          subst he2
          exact zname_ne_mname c c
      · have he2 : e = ("is_anomaly_iqr_" ++ c,
            iqrFlagOpts (numCol (detect_zscore df c 3) c) (3/2)) := by
          simpa using h1
        subst he2
        exact iname_ne_mname c c
    have I3 : ConsInv
        (detect_moving_average_deviation (detect_iqr (detect_zscore df c 3) c (3/2)) c 7 2)
        (((log ++ [("is_anomaly_zscore_" ++ c, zscoreFlagOpts (numCol df c) 3)]) ++
          [("is_anomaly_iqr_" ++ c, iqrFlagOpts (numCol (detect_zscore df c 3) c) (3/2))]) ++
          [("is_anomaly_ma_" ++ c,
            maFlagOpts (numCol (detect_iqr (detect_zscore df c 3) c (3/2)) c) 7 2)]) := by
      unfold detect_moving_average_deviation
      exact ConsInv_setCol_flag _ _ _ _ hmn hfm
        (ConsInv_setCol_nonflag _ _ _ _ hc6
          (ConsInv_setCol_nonflag _ _ _ _ hc5
            (ConsInv_setCol_nonflag _ _ _ _ hc4 I2)))
    have hF3 : FreshFor
        (((log ++ [("is_anomaly_zscore_" ++ c, zscoreFlagOpts (numCol df c) 3)]) ++
          [("is_anomaly_iqr_" ++ c, iqrFlagOpts (numCol (detect_zscore df c 3) c) (3/2))]) ++
          [("is_anomaly_ma_" ++ c,
            maFlagOpts (numCol (detect_iqr (detect_zscore df c 3) c (3/2)) c) 7 2)])
        cols' := by
      intro e he c'' hc''
      rcases List.mem_append.mp he with h1 | h1
      · exact hF2 e h1 c'' hc''
      · have he2 : e = ("is_anomaly_ma_" ++ c,
            maFlagOpts (numCol (detect_iqr (detect_zscore df c 3) c (3/2)) c) 7 2) := by
          simpa using h1
        subst he2
        refine ⟨fun h => zname_ne_mname c'' c h.symm, fun h => iname_ne_mname c'' c h.symm, ?_⟩
        intro h
        exact hcc (str_append_left_cancel h ▸ hc'')
    exact ⟨I3, hF3⟩

theorem foldl_detectors_inv (dc? : Option String) :
    ∀ (cols : List String) (df : Frame) (log : FlagLog),
    ConsInv df log → FreshFor log cols → cols.Nodup → (∀ c ∈ cols, CleanCol c) →
    ConsInv (cols.foldl (detectorsStep dc?) (df, log)).1
      (cols.foldl (detectorsStep dc?) (df, log)).2
  | [], df, log, hInv, _, _, _ => by simpa using hInv
  | c :: cols', df, log, hInv, hF, hnd, hcl => by
      rw [List.foldl_cons]
      have hnd' := List.nodup_cons.mp hnd
      have hstep := detectorsStep_inv dc? df log c cols' hInv hF hnd'.1
        (hcl c (List.mem_cons_self c cols'))
      have hrec := foldl_detectors_inv dc? cols'
        (detectorsStep dc? (df, log) c).1 (detectorsStep dc? (df, log) c).2
        hstep.1 hstep.2 hnd'.2
        (fun c' hc' => hcl c' (List.mem_cons_of_mem c hc'))
      simpa using hrec

theorem colNames_sortFrame (df : Frame) (dc : String) :
    colNames (sortFrame df dc) = colNames df := by
  simp [sortFrame, colNames]

theorem detect_all_aux_inv (d : AnomalyDetector) (data : Frame) (cols : List String)
    (dc? : Option String)
    (H1 : ∀ nm ∈ colNames data, strHasSub nm "is_anomaly" = false)
    (H2 : cols.Nodup) (H3 : ∀ c ∈ cols, CleanCol c) :
    ConsInv (detect_all_aux d data cols dc?).1 (detect_all_aux d data cols dc?).2 := by
  unfold detect_all_aux
  have key : ∀ df0 : Frame, colNames df0 = colNames data →
      ConsInv
        ((cols.foldl (detectorsStep dc?)
          (detect_isolation_forest d df0 cols,
           [("is_anomaly_if",
             (List.range (nRows df0)).map (fun i =>
               some (d.isoPredict (featureMatrix df0 cols) i)))])).1)
        ((cols.foldl (detectorsStep dc?)
          (detect_isolation_forest d df0 cols,
           [("is_anomaly_if",
             (List.range (nRows df0)).map (fun i =>
               some (d.isoPredict (featureMatrix df0 cols) i)))])).2) := by
    intro df0 hnames0
    have hInv0 : ConsInv df0 [] := by
      constructor
      · unfold flagCols
        simp only [List.map_nil]
        rw [List.filter_eq_nil_iff]
        intro nm hnm
        simp [H1 nm (hnames0 ▸ hnm)]
      · intro e he
        cases he
    have hifname : strHasSub "is_anomaly_if" "is_anomaly" = true := by decide
    have hscname : strHasSub "anomaly_score_if" "is_anomaly" = false := by decide
    have hcells :
        ((List.range (nRows df0)).map (fun i =>
            some (d.isoPredict (featureMatrix df0 cols) i))).map
          (fun o => Cell.flag (o.getD false))
        = (List.range (nRows df0)).map (fun i =>
            Cell.flag (d.isoPredict (featureMatrix df0 cols) i)) := by
      rw [List.map_map]
      rfl
    have base := ConsInv_setCol_flag df0 [] "is_anomaly_if"
      ((List.range (nRows df0)).map (fun i =>
        some (d.isoPredict (featureMatrix df0 cols) i)))
      hifname (by intro e he; cases he) hInv0
    rw [hcells] at base
    have I1 : ConsInv (detect_isolation_forest d df0 cols)
        [("is_anomaly_if",
          (List.range (nRows df0)).map (fun i =>
            some (d.isoPredict (featureMatrix df0 cols) i)))] := by
      unfold detect_isolation_forest
      simpa using ConsInv_setCol_nonflag _ _ _ _ hscname base
    have hF1 : FreshFor
        [("is_anomaly_if",
          (List.range (nRows df0)).map (fun i =>
            some (d.isoPredict (featureMatrix df0 cols) i)))] cols := by
      intro e he c'' _
      have he2 : e.1 = "is_anomaly_if" := by
        rcases List.mem_singleton.mp he with rfl
        rfl
      rw [he2]
      exact ⟨fun h => zname_ne_ifname c'' h.symm, fun h => iname_ne_ifname c'' h.symm,
        fun h => mname_ne_ifname c'' h.symm⟩
    exact foldl_detectors_inv dc? cols _ _ I1 hF1 H2 H3
  rcases dc? with _ | dc
  · exact key data rfl
  · exact key (sortFrame data dc) (colNames_sortFrame data dc)

theorem cellTrue_flag (b : Bool) : cellTrue (Cell.flag b) = b := by
  cases b <;> rfl

theorem getD_collapse_eq (opts : List (Option Bool)) (i : ℕ) :
    cellTrue ((opts.map (fun o => Cell.flag (o.getD false))).getD i Cell.nan)
      = (opts.getD i none == some true) := by
  rw [List.getD_eq_getElem?_getD, List.getD_eq_getElem?_getD, List.getElem?_map]
  cases ho : opts[i]? with
  | none => simp [cellTrue]
  | some o =>
      cases o with
      | none => simp [cellTrue]
      | some b => cases b <;> simp [cellTrue]

theorem voteCount_eq_votesAt (df : Frame) (log : FlagLog) (i : ℕ)
    (hInv : ConsInv df log) :
    voteCount df (flagCols df) i = votesAt log i := by
  unfold voteCount votesAt
  rw [hInv.1, List.countP_map]
  apply List.countP_congr
  intro e he
  simp only [Function.comp]
  rw [hInv.2 e he, getD_collapse_eq]

/-- C1: a row of `detect_all`'s output carries a true consensus flag
exactly when its vote count — the number of true flags across the
produced detector flag columns, with a disqualified/undefined flag
counting as false — is at least 2; in particular, when fewer than 2
detectors were applicable to the row, the consensus flag is false.  The
hypotheses say the row index is in range and that the input column names
neither contain `is_anomaly` nor collide with the detector artifact
columns. -/
theorem detect_all_consensus (d : AnomalyDetector) (data : Frame)
    (cols : List String) (dc? : Option String) (i : ℕ)
    (H1 : ∀ nm ∈ colNames data, strHasSub nm "is_anomaly" = false)
    (H2 : cols.Nodup) (H3 : ∀ c ∈ cols, CleanCol c)
    (hi : i < nRows (detect_all_aux d data cols dc?).1) :
    (cellTrue ((getCol (detect_all d data cols dc?)
        "is_anomaly_consensus").getD i Cell.nan) = true
      ↔ 2 ≤ votesAt (detect_all_aux d data cols dc?).2 i) ∧
    (applicableAt (detect_all_aux d data cols dc?).2 i < 2 →
      cellTrue ((getCol (detect_all d data cols dc?)
        "is_anomaly_consensus").getD i Cell.nan) = false) := by
  have hInv := detect_all_aux_inv d data cols dc? H1 H2 H3
  have hcol : getCol (detect_all d data cols dc?) "is_anomaly_consensus"
      = ((List.range (nRows (detect_all_aux d data cols dc?).1)).map
          (voteCount (detect_all_aux d data cols dc?).1
            (flagCols (detect_all_aux d data cols dc?).1))).map
        (fun c => Cell.flag (decide (2 ≤ c))) := by
    unfold detect_all
    rw [getCol_setCol_self]
    rfl
  have hcell : cellTrue ((getCol (detect_all d data cols dc?)
      "is_anomaly_consensus").getD i Cell.nan)
      = decide (2 ≤ votesAt (detect_all_aux d data cols dc?).2 i) := by
    rw [hcol, List.getD_eq_getElem?_getD, List.getElem?_map, List.getElem?_map,
      List.getElem?_range hi]
    simp only [Option.map_some', Option.map_some, Option.getD_some]
    rw [cellTrue_flag, voteCount_eq_votesAt _ _ _ hInv]
  constructor
  · rw [hcell]
    simp
  · intro happ
    have hv := votesAt_le_applicableAt (detect_all_aux d data cols dc?).2 i
    rw [hcell]
    simp only [decide_eq_false_iff_not]
    omega

/-- Witness for `detect_all_consensus` on a one-column, one-row frame (a
single applicable detector per flag column; the consensus is false). -/
theorem detect_all_consensus_witness :
    (∀ nm ∈ colNames [("x", [Cell.num 5])], strHasSub nm "is_anomaly" = false) ∧
    (["x"] : List String).Nodup ∧
    (∀ c ∈ (["x"] : List String), CleanCol c) ∧
    0 < nRows (detect_all_aux ⟨1/20, fun _ _ => false, fun _ _ => 0⟩
        [("x", [Cell.num 5])] ["x"] none).1 ∧
    ((cellTrue ((getCol (detect_all ⟨1/20, fun _ _ => false, fun _ _ => 0⟩
          [("x", [Cell.num 5])] ["x"] none) "is_anomaly_consensus").getD 0 Cell.nan) = true
        ↔ 2 ≤ votesAt (detect_all_aux ⟨1/20, fun _ _ => false, fun _ _ => 0⟩
          [("x", [Cell.num 5])] ["x"] none).2 0) ∧
      (applicableAt (detect_all_aux ⟨1/20, fun _ _ => false, fun _ _ => 0⟩
          [("x", [Cell.num 5])] ["x"] none).2 0 < 2 →
        cellTrue ((getCol (detect_all ⟨1/20, fun _ _ => false, fun _ _ => 0⟩
          [("x", [Cell.num 5])] ["x"] none) "is_anomaly_consensus").getD 0 Cell.nan)
          = false)) := by
  have h1 : ∀ nm ∈ colNames [("x", [Cell.num 5])], strHasSub nm "is_anomaly" = false := by
    decide
  have h2 : (["x"] : List String).Nodup := by decide
  have h3 : ∀ c ∈ (["x"] : List String), CleanCol c := by
    intro c hc
    rcases List.mem_singleton.mp hc with rfl
    refine ⟨by decide, by decide, by decide, by decide, by decide, by decide, by decide⟩
  have h4 : 0 < nRows (detect_all_aux ⟨1/20, fun _ _ => false, fun _ _ => 0⟩
      [("x", [Cell.num 5])] ["x"] none).1 := by
    decide
  exact ⟨h1, h2, h3, h4,
    detect_all_consensus ⟨1/20, fun _ _ => false, fun _ _ => 0⟩
      [("x", [Cell.num 5])] ["x"] none 0 h1 h2 h3 h4⟩

/-- C4 (counterexample): a single usable row — fewer than 2 — does not
make `detect_isolation_forest` fail: there is no `InsufficientDataError`
anywhere in the code, and the call returns a flag and a score for the
row. -/
theorem detect_isolation_forest_single_row :
    nRows [("x", [Cell.num 3])] = 1 ∧ (1 : ℕ) < 2 ∧
    getCol (detect_isolation_forest ⟨1/20, fun _ _ => false, fun _ _ => 0⟩
      [("x", [Cell.num 3])] ["x"]) "is_anomaly_if" = [Cell.flag false] ∧
    getCol (detect_isolation_forest ⟨1/20, fun _ _ => false, fun _ _ => 0⟩
      [("x", [Cell.num 3])] ["x"]) "anomaly_score_if" = [Cell.num 0] := by
  have hne : ("is_anomaly_if" : String) ≠ "anomaly_score_if" := by decide
  refine ⟨rfl, by norm_num, ?_, ?_⟩ <;>
    simp [detect_isolation_forest, getCol_setCol_self,
      getCol_setCol_ne _ _ _ _ hne, nRows]

end AnomalyDetection

namespace TrendAnalyzer

open PowerBI

/-! ### Negation duality of the peak search (C8) -/

theorem getD_map_neg : ∀ (s : List ℚ) (j : ℕ),
    (s.map (fun v => -v)).getD j 0 = -(s.getD j 0)
  | [], j => by simp
  | a :: s, 0 => by simp
  | a :: s, j + 1 => by simpa using getD_map_neg s j

theorem plLeft_map_neg (s : List ℚ) : ∀ j : ℕ,
    plLeft (s.map (fun v => -v)) j = plLeft s j
  | 0 => rfl
  | j + 1 => by
      unfold plLeft
      rw [getD_map_neg, getD_map_neg, plLeft_map_neg s j]
      simp [neg_inj]

theorem plRightAux_map_neg (s : List ℚ) : ∀ (fuel j : ℕ),
    plRightAux (s.map (fun v => -v)) fuel j = plRightAux s fuel j
  | 0, _ => rfl
  | fuel + 1, j => by
      unfold plRightAux
      rw [getD_map_neg, getD_map_neg, plRightAux_map_neg s fuel (j + 1)]
      simp [neg_inj]

theorem isPeakIdx_map_neg (s : List ℚ) (i : ℕ) :
    isPeakIdx (s.map (fun v => -v)) i = isTroughIdx s i := by
  unfold isPeakIdx isTroughIdx plRight
  simp only [List.length_map, plLeft_map_neg, plRightAux_map_neg, getD_map_neg,
    neg_lt_neg_iff]

theorem wleft_map_neg (s : List ℚ) (xp : ℚ) : ∀ j : ℕ,
    wleft (s.map (fun v => -v)) (-xp) j = (wleftMax s xp j).map (fun m => -m)
  | 0 => by
      unfold wleft wleftMax
      rw [getD_map_neg]
      by_cases h : xp ≤ s.getD 0 0 <;> simp [h, neg_le_neg_iff]
  | j + 1 => by
      unfold wleft wleftMax
      rw [getD_map_neg, wleft_map_neg s xp j]
      simp only [neg_le_neg_iff]
      by_cases h : xp ≤ s.getD (j + 1) 0
      · rw [if_pos h, if_pos h]
        rcases hm : wleftMax s xp j with _ | m <;> simp [hm, min_neg_neg]
      · rw [if_neg h, if_neg h]
        rfl

theorem wright_map_neg (s : List ℚ) (xp : ℚ) : ∀ (fuel j : ℕ),
    wright (s.map (fun v => -v)) (-xp) fuel j = (wrightMax s xp fuel j).map (fun m => -m)
  | 0, _ => rfl
  | fuel + 1, j => by
      unfold wright wrightMax
      rw [List.length_map, getD_map_neg, wright_map_neg s xp fuel (j + 1)]
      simp only [neg_le_neg_iff]
      by_cases h : j < s.length ∧ xp ≤ s.getD j 0
      · rw [if_pos h, if_pos h]
        rcases hm : wrightMax s xp fuel (j + 1) with _ | m <;> simp [hm, min_neg_neg]
      · rw [if_neg h, if_neg h]
        rfl

theorem prominence_map_neg (s : List ℚ) (i : ℕ) :
    prominence (s.map (fun v => -v)) i = troughProminence s i := by
  unfold prominence troughProminence
  simp only [getD_map_neg, List.length_map, wleft_map_neg, wright_map_neg]
  rcases hl : wleftMax s (s.getD i 0) i with _ | lm <;>
    rcases hr : wrightMax s (s.getD i 0) (s.length - i) i with _ | rm <;>
      simp [hl, hr, max_neg_neg] <;> ring

theorem find_peaks_map_neg (s : List ℚ) (p : ℚ) :
    find_peaks (s.map (fun v => -v)) p = findTroughsDirect s p := by
  unfold find_peaks findTroughsDirect localMaxIndices
  rw [List.length_map]
  have h1 : (List.range s.length).filter (isPeakIdx (s.map (fun v => -v)))
      = (List.range s.length).filter (isTroughIdx s) :=
    List.filter_congr (fun i _ => isPeakIdx_map_neg s i)
  rw [h1]
  exact List.filter_congr (fun i _ => by rw [prominence_map_neg])

/-- C8 (amended): the locator's default minimum prominence is the fixed
constant `0.1` — not scaled to the series' value range — and its troughs
are obtained by negating the series and reusing the peak search, which
coincides (for every prominence) with direct prominence-based
local-minimum detection on the original series. -/
theorem identify_peaks_and_troughs_spec (s : List ℚ) (p : ℚ) :
    (identify_peaks_and_troughs s).peak_indices = find_peaks s (1/10) ∧
    (identify_peaks_and_troughs s).trough_indices = findTroughsDirect s (1/10) ∧
    (identify_peaks_and_troughs s p).trough_indices = findTroughsDirect s p ∧
    (identify_peaks_and_troughs s p).peak_count
      = (identify_peaks_and_troughs s p).peak_indices.length :=
  ⟨rfl, find_peaks_map_neg s (1/10), find_peaks_map_neg s p, rfl⟩

/-- C8 (counterexample): on `[0, 100, 0, 1, 0]` the value range is `100`,
so a default prominence "scaled to 10% of the value range" would be `10`
and would drop the small peak at index 3 (prominence 1); the code's
actual default `0.1` keeps it.  The default is an absolute constant, not
range-scaled. -/
theorem peaks_default_prominence_not_range_scaled :
    (identify_peaks_and_troughs [0, 100, 0, 1, 0]).peak_indices = [1, 3] ∧
    (identifyPeaksTroughsSpecScaled [0, 100, 0, 1, 0]).peak_indices = [1] ∧
    (identify_peaks_and_troughs [0, 100, 0, 1, 0]).peak_indices
      ≠ (identifyPeaksTroughsSpecScaled [0, 100, 0, 1, 0]).peak_indices := by
  have hlm : localMaxIndices [0, 100, 0, 1, 0] = [1, 3] := by
    norm_num [localMaxIndices, isPeakIdx, plLeft, plRight, plRightAux,
      (show List.range 5 = [0, 1, 2, 3, 4] from rfl), List.filter]
  have hp1 : prominence [0, 100, 0, 1, 0] 1 = 100 := by
    norm_num [prominence, wleft, wright]
  have hp3 : prominence [0, 100, 0, 1, 0] 3 = 1 := by
    norm_num [prominence, wleft, wright]
  have hq : (listMax [0, 100, 0, 1, 0] - listMin [0, 100, 0, 1, 0]) / 10 = (10 : ℚ) := by
    norm_num [listMax, listMin, max_def, min_def]
  have e1 : find_peaks [0, 100, 0, 1, 0] (1/10) = [1, 3] := by
    unfold find_peaks
    rw [hlm]
    norm_num [List.filter, hp1, hp3]
  have e2 : find_peaks [0, 100, 0, 1, 0] 10 = [1] := by
    unfold find_peaks
    rw [hlm]
    norm_num [List.filter, hp1, hp3]
  have g1 : (identify_peaks_and_troughs [0, 100, 0, 1, 0]).peak_indices
      = find_peaks [0, 100, 0, 1, 0] (1/10) := rfl
  have g2 : (identifyPeaksTroughsSpecScaled [0, 100, 0, 1, 0]).peak_indices
      = find_peaks [0, 100, 0, 1, 0]
          ((listMax [0, 100, 0, 1, 0] - listMin [0, 100, 0, 1, 0]) / 10) := rfl
  refine ⟨?_, ?_, ?_⟩
  · rw [g1, e1]
  · rw [g2, hq, e2]
  · rw [g1, e1, g2, hq, e2]
    decide

end TrendAnalyzer
